import Mathlib

/-!
# Material definitions: key/value reader, parameter dispatch and resolution cache

A shallow embedding of `src/src/material.c` (`getNextKeyValue`, `ignore_params`,
`materialLoad`, `materialGet`) together with the properties proved about it.

Conventions of the embedding:

* a C string is the list of its characters before the terminating NUL;
* a pointer is an `Option`: `none` is `NULL`;
* the tokenizer, the texture resolver, the two caches and the file collection are
  declared in headers that are not part of the sources at hand; they are either
  parameters (`Env`) or modelled from the written specification, and say so;
* the mutual recursion of `materialLoad` and `materialGet` through `include` need not
  terminate, so `materialGet` carries a recursion budget and reports `Outcome.outOfFuel`
  when it is used up.
-/

set_option autoImplicit false

namespace MaterialVmt

/-! ## C strings -/

/-- C string: the characters before the terminating NUL. -/
abbrev CString := List Char

/-- C library `tolower` in the C locale: only `A`..`Z` are mapped. -/
def tolower (c : Char) : Char :=
  if 65 ≤ c.toNat ∧ c.toNat ≤ 90 then Char.ofNat (c.toNat + 32) else c

/-- C library `strncasecmp s1 s2 n`: compares at most `n` characters, ignoring case,
stopping at the first difference or at the end of either string. The result is the
difference of the first two differing (lowered) characters, `0` if there is none.
An empty list stands for the position of the terminating NUL. -/
def strncasecmp : CString → CString → Nat → Int
  | _, _, 0 => 0
  | [], [], _ + 1 => 0
  | [], b :: _, _ + 1 => 0 - ((tolower b).toNat : Int)
  | a :: _, [], _ + 1 => ((tolower a).toNat : Int)
  | a :: s1, b :: s2, n + 1 =>
    if tolower a = tolower b then strncasecmp s1 s2 n
    else ((tolower a).toNat : Int) - ((tolower b).toNat : Int)

/-- C library `strstr haystack needle`: offset of the first occurrence of `needle`,
`none` (NULL) when there is no occurrence. -/
def strstr : CString → CString → Option Nat
  | [], needle => if needle = [] then some 0 else none
  | c :: cs, needle =>
    if needle.isPrefixOf (c :: cs) then some 0
    else (strstr cs needle).map (fun i => i + 1)

/-! ## Tokenizer interface (`vmfparser.h`) -/

/-- Modelled from the spec: the token kinds of `vmfparser.h`, which is not among the
sources: string, opening brace, closing brace and end of input, under the names
`material.c` uses. -/
inductive TokenType where
  | Token_String
  | Token_CurlyOpen
  | Token_CurlyClose
  | Token_End
  deriving DecidableEq, Repr

/-- One lexical element of the input buffer: a string literal with its characters, an
opening brace or a closing brace. -/
inductive Lexeme where
  | str (s : CString)
  | curlyOpen
  | curlyClose
  deriving DecidableEq, Repr

/-- Modelled from the spec: the tokenizer state `struct TokenContext` of `vmfparser.h`,
which is not among the sources. The cursor into the buffer is modelled by the lexical
elements not yet produced; `str` is the span `str_start`, `str_length` of the last
string token. -/
structure TokenContext where
  cursor : List Lexeme
  str : CString
  deriving DecidableEq, Repr

/-- Modelled from the spec: `getNextToken` of `vmfparser.h`, which is not among the
sources. It produces the next token and advances the cursor; at exhaustion it returns
`Token_End` instead of failing. For a string token the span of the string is left in
the context. -/
def getNextToken (tok : TokenContext) : TokenType × TokenContext :=
  match tok.cursor with
  | [] => (TokenType.Token_End, tok)
  | Lexeme.str s :: rest => (TokenType.Token_String, { cursor := rest, str := s })
  | Lexeme.curlyOpen :: rest => (TokenType.Token_CurlyOpen, { tok with cursor := rest })
  | Lexeme.curlyClose :: rest => (TokenType.Token_CurlyClose, { tok with cursor := rest })

/-! ## Key/value reader (`material.c` lines 8-54) -/

/-- The parsing context `struct MaterialContext`, without the `mat` pointer, which
`getNextKeyValue` never uses: the record is passed separately. `key` is the span
`key`, `key_length`; `value` is the content of the 128-byte buffer as a C string. -/
structure MaterialContext where
  tok : TokenContext
  key : CString
  value : CString
  deriving DecidableEq, Repr

/-- Result of `getNextKeyValue`. -/
inductive KeyValueResult where
  | KeyValue_Read
  | KeyValue_Error
  | KeyValue_End
  deriving DecidableEq, Repr

/-- The skip loop of `getNextKeyValue` (lines 32-41) entered with the given `depth`.
Returns `true` with the context after the closing brace that brought the depth to
zero (`break`), or `false` when a token other than a string or a brace was met
(`return KeyValue_Error`). -/
def skipSection : Int → List Lexeme → CString → Bool × TokenContext
  | _, [], str => (false, { cursor := [], str := str })
  | depth, Lexeme.curlyClose :: rest, str =>
    if depth - 1 = 0 then (true, { cursor := rest, str := str })
    else skipSection (depth - 1) rest str
  | depth, Lexeme.curlyOpen :: rest, str => skipSection (depth + 1) rest str
  | depth, Lexeme.str s :: rest, _ => skipSection depth rest s

/-- Size of the value buffer, `sizeof(ctx->value)`. -/
def valueCapacity : Nat := 128

/-- The outer loop of `getNextKeyValue` (lines 18-53). The first argument bounds the
number of iterations; `getNextKeyValue` starts it with more iterations than there are
tokens left, and every iteration that continues has consumed at least three tokens, so
the bound is never reached (`getNextKeyValueLoop_budget`). -/
def getNextKeyValueLoop : Nat → MaterialContext → KeyValueResult × MaterialContext
  | 0, ctx => (KeyValueResult.KeyValue_Error, ctx)
  | n + 1, ctx =>
    match getNextToken ctx.tok with
    | (TokenType.Token_End, tok) => (KeyValueResult.KeyValue_End, { ctx with tok := tok })
    | (TokenType.Token_CurlyClose, tok) =>
      (KeyValueResult.KeyValue_End, { ctx with tok := tok })
    | (TokenType.Token_CurlyOpen, tok) =>
      (KeyValueResult.KeyValue_Error, { ctx with tok := tok })
    | (TokenType.Token_String, tok) =>
      let ctx : MaterialContext := { ctx with tok := tok, key := tok.str }
      match getNextToken ctx.tok with
      | (TokenType.Token_CurlyOpen, tok) =>
        match skipSection 1 tok.cursor tok.str with
        | (true, tok) => getNextKeyValueLoop n { ctx with tok := tok }
        | (false, tok) => (KeyValueResult.KeyValue_Error, { ctx with tok := tok })
      | (TokenType.Token_String, tok) =>
        if tok.str.length > valueCapacity - 1 then
          (KeyValueResult.KeyValue_Error, { ctx with tok := tok })
        else
          (KeyValueResult.KeyValue_Read, { ctx with tok := tok, value := tok.str })
      | (_, tok) => (KeyValueResult.KeyValue_Error, { ctx with tok := tok })

/-- The function `getNextKeyValue` (lines 17-54): reads the next key/value pair into the
context, skipping every key that is followed by a block. -/
def getNextKeyValue (ctx : MaterialContext) : KeyValueResult × MaterialContext :=
  getNextKeyValueLoop (ctx.tok.cursor.length + 1) ctx

/-! ## Records, caches and collaborators -/

/-- Modelled from the spec: `struct Material` of `material.h`, which is not among the
sources. A shader name, two base-texture references and the optional detail, bump and
environment-map references; a reference is a pointer to a texture of the texture cache
(`none` is NULL). The code at hand writes all fields but `shader`. -/
structure Material where
  shader : CString
  base_texture_0 : Option Nat
  base_texture_1 : Option Nat
  detail : Option Nat
  bump : Option Nat
  envmap : Option Nat
  deriving DecidableEq, Repr

/-- The record after `memset(&localmat, 0, sizeof localmat)`. -/
def zeroMaterial : Material :=
  { shader := [], base_texture_0 := none, base_texture_1 := none, detail := none,
    bump := none, envmap := none }

/-- Process-wide state: the material cache and the state of the texture subsystem,
whose type is left open. -/
structure World (σ : Type) where
  materials : List (CString × Material)
  textures : σ

/-- Modelled from the spec: key normalisation of the cache, which compares names
ignoring letter case. -/
def normalize (name : CString) : CString := name.map tolower

/-- Modelled from the spec: `cacheGetMaterial` of `cache.h`, which is not among the
sources: the record stored under the name, compared ignoring case, or NULL. -/
def cacheGetMaterial {σ : Type} (name : CString) (w : World σ) : Option Material :=
  (w.materials.find? (fun e => decide (normalize e.1 = normalize name))).map Prod.snd

/-- Modelled from the spec: `cachePutMaterial` of `cache.h`, which is not among the
sources: stores a copy of the record under the name; keys stay unique. -/
def cachePutMaterial {σ : Type} (name : CString) (mat : Material) (w : World σ) : World σ :=
  { w with materials :=
      (name, mat) :: w.materials.filter (fun e => !decide (normalize e.1 = normalize name)) }

/-- Modelled from the spec: a file of the collection, `struct IFile` of `collection.h`,
which is not among the sources, with the two members `materialLoad` uses: its size and
its `read` function, which for an offset and a length gives the number of bytes read
and the bytes stored in the buffer. -/
structure IFile where
  size : Nat
  read : Nat → Nat → Nat × List Char

/-- The collaborators whose code is not among the sources, as parameters.

* `tokenize`: the lexical elements `getNextToken` finds in a buffer;
* `textureGet`: resolves a texture by name. Modelled from the spec: it always returns a
  usable reference (falling back to its own placeholder) and acts on the texture
  subsystem only;
* `cacheGetTexture`: texture cache lookup, NULL when the name is absent;
* `collectionChainOpen`: opens the material file of a name, `none` unless the result is
  `CollectionOpen_Success`. -/
structure Env (σ : Type) where
  tokenize : List Char → List Lexeme
  textureGet : CString → σ → Nat × σ
  cacheGetTexture : CString → σ → Option Nat
  collectionChainOpen : CString → Option IFile

/-- The well-known placeholder name used by `materialLoad` and `materialGet`. -/
def placeholder : CString := "opensource/placeholder".toList

/-- How a call ends: with a result, with the dereference of a NULL pointer (line 130 when
`materialGet` returned NULL), or not within the recursion budget. -/
inductive Outcome (α : Type) where
  | ok (a : α)
  | nullDeref
  | outOfFuel

/-! ## Parameter dispatch (`material.c` lines 56-61 and 96-134) -/

/-- The table `ignore_params` (lines 56-61). -/
def ignore_params : List CString :=
  ["$surfaceprop".toList, "$surfaceprop2".toList, "$tooltexture".toList,
   "%tooltexture".toList, "%keywords".toList, "%compilewater".toList,
   "%detailtype".toList, "%compilenolight".toList, "%compilepassbullets".toList]

/-- The branches of the dispatch of `materialLoad`. -/
inductive Param where
  | ignored
  | basetexture
  | basetexture2
  | noop
  | detail
  | bumpmap
  | envmap
  | includeMaterial
  | unknown
  deriving DecidableEq, Repr

/-- The comparison `strncasecmp(entry, ctx.key, ctx.key_length) == 0` used by every test
of the dispatch. -/
def keyMatches (entry : String) (key : CString) : Bool :=
  decide (strncasecmp entry.toList key key.length = 0)

/-- The branch `materialLoad` takes for a key: the loop over `ignore_params`
(lines 96-102) and then the chain of tests of lines 104-134, in their order. -/
def keyParam (key : CString) : Param :=
  if ignore_params.any (fun ig => decide (strncasecmp ig key key.length = 0)) then
    Param.ignored
  else if keyMatches "$basetexture" key then Param.basetexture
  else if keyMatches "$basetexture2" key then Param.basetexture2
  else if keyMatches "$basetexturetransform" key then Param.noop
  else if keyMatches "$basetexturetransform2" key then Param.noop
  else if keyMatches "$detail" key then Param.detail
  else if keyMatches "$detailscale" key then Param.noop
  else if keyMatches "$detailblendfactor" key then Param.noop
  else if keyMatches "$detailblendmode" key then Param.noop
  else if keyMatches "$parallaxmap" key then Param.noop
  else if keyMatches "$parallaxmapscale" key then Param.noop
  else if keyMatches "$bumpmap" key then Param.bumpmap
  else if keyMatches "$envmap" key then Param.envmap
  else if keyMatches "$fogenable" key then Param.noop
  else if keyMatches "$fogcolor" key then Param.noop
  else if keyMatches "$alphatest" key then Param.noop
  else if keyMatches "$translucent" key then Param.noop
  else if keyMatches "include" key then Param.includeMaterial
  else Param.unknown

/-- The name `include` hands to `materialGet` (lines 126-130): the value is cut at the
first occurrence of `.vmt`; if it then starts with `materials/`, the name is what
follows these ten characters, otherwise there is no call. -/
def includeName (value : CString) : Option CString :=
  let value := match strstr value ".vmt".toList with
    | some i => value.take i
    | none => value
  if strstr value "materials/".toList = some 0 then some (value.drop 10) else none

/-- The body of the branch taken (lines 104-134) on the record `output`: a texture key
stores what `textureGet` returns for the value; `include` overwrites the whole record
with the one `materialGet` returns (`get` stands for the recursive `materialGet`); the
other branches do nothing. -/
def setParam {σ : Type} (E : Env σ)
    (get : CString → World σ → Outcome (Option Material × World σ))
    (p : Param) (value : CString) (output : Material) (w : World σ) :
    Outcome (Material × World σ) :=
  match p with
  | Param.basetexture =>
    let r := E.textureGet value w.textures
    Outcome.ok ({ output with base_texture_0 := some r.1 }, { w with textures := r.2 })
  | Param.basetexture2 =>
    let r := E.textureGet value w.textures
    Outcome.ok ({ output with base_texture_1 := some r.1 }, { w with textures := r.2 })
  | Param.detail =>
    let r := E.textureGet value w.textures
    Outcome.ok ({ output with detail := some r.1 }, { w with textures := r.2 })
  | Param.bumpmap =>
    let r := E.textureGet value w.textures
    Outcome.ok ({ output with bump := some r.1 }, { w with textures := r.2 })
  | Param.envmap =>
    let r := E.textureGet value w.textures
    Outcome.ok ({ output with envmap := some r.1 }, { w with textures := r.2 })
  | Param.includeMaterial =>
    match includeName value with
    | none => Outcome.ok (output, w)
    | some name =>
      match get name w with
      | Outcome.ok (some mat, w1) => Outcome.ok (mat, w1)
      | Outcome.ok (none, _) => Outcome.nullDeref
      | Outcome.nullDeref => Outcome.nullDeref
      | Outcome.outOfFuel => Outcome.outOfFuel
  | _ => Outcome.ok (output, w)

/-! ## `materialLoad` and `materialGet` (`material.c` lines 63-168) -/

/-- Size of the file buffer, `sizeof(buffer)`. -/
def bufferSize : Nat := 8192

/-- Lines 137-138: an unset first base texture becomes the placeholder texture. -/
def withPlaceholder {σ : Type} (E : Env σ) (output : Material) (w : World σ) : Material :=
  if output.base_texture_0 = none then
    { output with base_texture_0 := E.cacheGetTexture placeholder w.textures }
  else output

/-- The loop over all properties of `materialLoad` (lines 91-145) and what follows it.
The result is the return value of `materialLoad` with the record and the state. The
first argument bounds the number of iterations; `materialLoad` starts the loop with
more iterations than there are tokens, and every iteration consumes at least two, so
the bound is never reached (`materialLoop_budget`). -/
def materialLoop {σ : Type} (E : Env σ)
    (get : CString → World σ → Outcome (Option Material × World σ)) :
    Nat → MaterialContext → Material → World σ → Outcome (Int × Material × World σ)
  | 0, _, _, _ => Outcome.outOfFuel
  | k + 1, ctx, output, w =>
    match getNextKeyValue ctx with
    | (KeyValueResult.KeyValue_End, _) => Outcome.ok (1, withPlaceholder E output w, w)
    | (KeyValueResult.KeyValue_Error, _) => Outcome.ok (0, output, w)
    | (KeyValueResult.KeyValue_Read, ctx1) =>
      match setParam E get (keyParam ctx1.key) ctx1.value output w with
      | Outcome.ok (output1, w1) => materialLoop E get k ctx1 output1 w1
      | Outcome.nullDeref => Outcome.nullDeref
      | Outcome.outOfFuel => Outcome.outOfFuel

/-- The function `materialLoad` (lines 63-145). `get` stands for the recursive
`materialGet`; the result is the returned `int` with the record `*output` and the
state after the call. -/
def materialLoad {σ : Type} (E : Env σ)
    (get : CString → World σ → Outcome (Option Material × World σ))
    (file : IFile) (output : Material) (w : World σ) :
    Outcome (Int × Material × World σ) :=
  if file.size > bufferSize - 1 then Outcome.ok (0, output, w)
  else
    let r := file.read 0 file.size
    if file.size ≠ r.1 then Outcome.ok (0, output, w)
    else
      let tok : TokenContext := { cursor := E.tokenize r.2, str := [] }
      match getNextToken tok with
      | (TokenType.Token_String, tok1) =>
        match getNextToken tok1 with
        | (TokenType.Token_CurlyOpen, tok2) =>
          materialLoop E get (tok2.cursor.length + 1)
            { tok := tok2, key := [], value := [] } output w
        | _ => Outcome.ok (0, output, w)
      | _ => Outcome.ok (0, output, w)

/-- The function `materialGet` (lines 147-168). The first argument bounds the depth of
the recursion through `include`. The result is the returned pointer, as the record it
points to, and the state after the call. -/
def materialGet {σ : Type} (E : Env σ) :
    Nat → CString → World σ → Outcome (Option Material × World σ)
  | 0, _, _ => Outcome.outOfFuel
  | n + 1, name, w =>
    match cacheGetMaterial name w with
    | some mat => Outcome.ok (some mat, w)
    | none =>
      match E.collectionChainOpen name with
      | none => Outcome.ok (cacheGetMaterial placeholder w, w)
      | some matfile =>
        match materialLoad E (materialGet E n) matfile zeroMaterial w with
        | Outcome.ok (r, localmat, w1) =>
          if r = 0 then Outcome.ok (cacheGetMaterial placeholder w1, w1)
          else
            let w2 := cachePutMaterial name localmat w1
            match cacheGetMaterial name w2 with
            | some mat => Outcome.ok (some mat, w2)
            | none => Outcome.ok (cacheGetMaterial placeholder w2, w2)
        | Outcome.nullDeref => Outcome.nullDeref
        | Outcome.outOfFuel => Outcome.outOfFuel

/-! ## Definitions as written in a file -/

/-- The content of a block: strings and nested blocks, in order. -/
inductive Body where
  | nil
  | str (s : CString) (rest : Body)
  | block (inner : Body) (rest : Body)
  deriving DecidableEq, Repr

/-- The lexical elements of the content of a block; a nested block is enclosed in
braces. -/
def Body.lexemes : Body → List Lexeme
  | Body.nil => []
  | Body.str s rest => Lexeme.str s :: rest.lexemes
  | Body.block inner rest =>
    Lexeme.curlyOpen :: (inner.lexemes ++ Lexeme.curlyClose :: rest.lexemes)

/-- An entry of a definition: a key with its value, or a key followed by a block. -/
inductive Item where
  | pair (key value : CString)
  | block (key : CString) (body : Body)
  deriving DecidableEq, Repr

/-- The lexical elements of an entry. -/
def Item.lexemes : Item → List Lexeme
  | Item.pair key value => [Lexeme.str key, Lexeme.str value]
  | Item.block key body =>
    Lexeme.str key :: Lexeme.curlyOpen :: (body.lexemes ++ [Lexeme.curlyClose])

/-- The lexical elements of a list of entries. -/
def itemsLexemes : List Item → List Lexeme
  | [] => []
  | it :: rest => it.lexemes ++ itemsLexemes rest

/-- The lexical elements of a well-formed definition: shader name, opening brace,
entries, closing brace. -/
def definitionLexemes (shader : CString) (items : List Item) : List Lexeme :=
  Lexeme.str shader :: Lexeme.curlyOpen :: (itemsLexemes items ++ [Lexeme.curlyClose])

/-- Every value of the entries fits the value buffer of `getNextKeyValue` with its
terminating NUL. -/
def valuesFit : List Item → Bool
  | [] => true
  | Item.pair _ value :: rest => decide (value.length ≤ valueCapacity - 1) && valuesFit rest
  | Item.block _ _ :: rest => valuesFit rest

/-- What the loop of `materialLoad` does with the entries of a definition, one after the
other: a key with a value goes through the dispatch, a key with a block is skipped. -/
def setItems {σ : Type} (E : Env σ)
    (get : CString → World σ → Outcome (Option Material × World σ)) :
    List Item → Material → World σ → Outcome (Material × World σ)
  | [], output, w => Outcome.ok (output, w)
  | Item.pair key value :: rest, output, w =>
    match setParam E get (keyParam key) value output w with
    | Outcome.ok (output1, w1) => setItems E get rest output1 w1
    | Outcome.nullDeref => Outcome.nullDeref
    | Outcome.outOfFuel => Outcome.outOfFuel
  | Item.block _ _ :: rest, output, w => setItems E get rest output w

/-- The end of `materialLoad` after the last entry (lines 137-140): the placeholder
texture if need be, and the return value 1. -/
def finishLoad {σ : Type} (E : Env σ) :
    Outcome (Material × World σ) → Outcome (Int × Material × World σ)
  | Outcome.ok (output, w) => Outcome.ok (1, withPlaceholder E output w, w)
  | Outcome.nullDeref => Outcome.nullDeref
  | Outcome.outOfFuel => Outcome.outOfFuel

/-- The text `"shader" { "proxies" { "a" "1" { "b" "2" } } "$basetexture" "foo" }` as
the tokenizer reads it. -/
def proxiesExample : List Lexeme :=
  [Lexeme.str "shader".toList, Lexeme.curlyOpen,
   Lexeme.str "proxies".toList, Lexeme.curlyOpen,
   Lexeme.str "a".toList, Lexeme.str "1".toList, Lexeme.curlyOpen,
   Lexeme.str "b".toList, Lexeme.str "2".toList, Lexeme.curlyClose, Lexeme.curlyClose,
   Lexeme.str "$basetexture".toList, Lexeme.str "foo".toList, Lexeme.curlyClose]

/-- The string span left in the tokenizer context after the content of a block has been
read. -/
def Body.lastStr : Body → CString → CString
  | Body.nil, s => s
  | Body.str t rest, _ => rest.lastStr t
  | Body.block inner rest, s => rest.lastStr (inner.lastStr s)

/-- The keys that `materialLoad` accepts without any effect (lines 108-124). -/
def noop_params : List CString :=
  ["$basetexturetransform".toList, "$basetexturetransform2".toList, "$detailscale".toList,
   "$detailblendfactor".toList, "$detailblendmode".toList, "$parallaxmap".toList,
   "$parallaxmapscale".toList, "$fogenable".toList, "$fogcolor".toList,
   "$alphatest".toList, "$translucent".toList]

/-- The entries of a definition made of keys with values only. -/
def pairItems (pairs : List (CString × CString)) : List Item :=
  pairs.map (fun p => Item.pair p.1 p.2)

/-- Whether the loop of `materialLoad` ends with the return value 1, read off the tokens
alone: the result of `getNextKeyValue` never depends on the record or the state. The
first argument bounds the iterations as in `materialLoop`. -/
def parseStatus : Nat → MaterialContext → Bool
  | 0, _ => false
  | k + 1, ctx =>
    match getNextKeyValue ctx with
    | (KeyValueResult.KeyValue_End, _) => true
    | (KeyValueResult.KeyValue_Error, _) => false
    | (KeyValueResult.KeyValue_Read, ctx1) => parseStatus k ctx1

/-- Whether `materialLoad` returns 1 on a file when it returns at all, read off the
file alone: size check, complete read, header and loop. -/
def loadStatus {σ : Type} (E : Env σ) (file : IFile) : Bool :=
  if file.size > bufferSize - 1 then false
  else
    let r := file.read 0 file.size
    if file.size ≠ r.1 then false
    else
      match getNextToken { cursor := E.tokenize r.2, str := [] } with
      | (TokenType.Token_String, tok1) =>
        match getNextToken tok1 with
        | (TokenType.Token_CurlyOpen, tok2) =>
          parseStatus (tok2.cursor.length + 1) { tok := tok2, key := [], value := [] }
        | _ => false
      | _ => false

/-- The return value of `materialLoad` for a status. -/
def statusInt : Bool → Int
  | true => 1
  | false => 0

/-- The definition of a name can be loaded: the collection has a file for it on which
`materialLoad` returns 1. -/
def loads {σ : Type} (E : Env σ) (name : CString) : Prop :=
  ∃ file, E.collectionChainOpen name = some file ∧ loadStatus E file = true

/-- What a call may do to the material cache: a record that is cached stays as it is,
and a name gets a record only if a definition of that name, up to letter case, can be
loaded. -/
def CacheStep {σ : Type} (E : Env σ) (w w1 : World σ) : Prop :=
  (∀ x m, cacheGetMaterial x w = some m → cacheGetMaterial x w1 = some m)
  ∧ (∀ x, cacheGetMaterial x w = none → cacheGetMaterial x w1 ≠ none →
      ∃ y, normalize y = normalize x ∧ loads E y)

/-! ## The key/value reader with its token reads counted -/

/-- The number of calls of `getNextToken` the skip loop of `getNextKeyValue` (lines 32-41)
makes when entered with the given `depth`: one for each iteration, the last one being
the iteration that leaves the loop. -/
def skipSectionReads : Int → List Lexeme → Nat
  | _, [] => 1
  | depth, Lexeme.curlyClose :: rest =>
    if depth - 1 = 0 then 1 else 1 + skipSectionReads (depth - 1) rest
  | depth, Lexeme.curlyOpen :: rest => 1 + skipSectionReads (depth + 1) rest
  | depth, Lexeme.str _ :: rest => 1 + skipSectionReads depth rest

/-- The outer loop of `getNextKeyValue` (lines 18-53) once more, with the bound on the
iterations made visible and the calls of `getNextToken` counted: `none` when the bound
is used up before the function returns, otherwise the result, the context and the
number of calls made. -/
def getNextKeyValueFuel :
    Nat → MaterialContext → Option (KeyValueResult × MaterialContext × Nat)
  | 0, _ => none
  | n + 1, ctx =>
    match getNextToken ctx.tok with
    | (TokenType.Token_End, tok) =>
      some (KeyValueResult.KeyValue_End, { ctx with tok := tok }, 1)
    | (TokenType.Token_CurlyClose, tok) =>
      some (KeyValueResult.KeyValue_End, { ctx with tok := tok }, 1)
    | (TokenType.Token_CurlyOpen, tok) =>
      some (KeyValueResult.KeyValue_Error, { ctx with tok := tok }, 1)
    | (TokenType.Token_String, tok) =>
      let ctx : MaterialContext := { ctx with tok := tok, key := tok.str }
      match getNextToken ctx.tok with
      | (TokenType.Token_CurlyOpen, tok) =>
        match skipSection 1 tok.cursor tok.str with
        | (true, tok1) =>
          match getNextKeyValueFuel n { ctx with tok := tok1 } with
          | some (res, ctx1, reads) =>
            some (res, ctx1, 2 + skipSectionReads 1 tok.cursor + reads)
          | none => none
        | (false, tok1) =>
          some (KeyValueResult.KeyValue_Error, { ctx with tok := tok1 },
            2 + skipSectionReads 1 tok.cursor)
      | (TokenType.Token_String, tok) =>
        if tok.str.length > valueCapacity - 1 then
          some (KeyValueResult.KeyValue_Error, { ctx with tok := tok }, 2)
        else
          some (KeyValueResult.KeyValue_Read, { ctx with tok := tok, value := tok.str }, 2)
      | (_, tok) => some (KeyValueResult.KeyValue_Error, { ctx with tok := tok }, 2)

/-- The depth counter of the skip loop after the given tokens, started at `depth`: one
more for each opening brace, one less for each closing brace. -/
def depthAfter : Int → List Lexeme → Int
  | depth, [] => depth
  | depth, Lexeme.curlyOpen :: rest => depthAfter (depth + 1) rest
  | depth, Lexeme.curlyClose :: rest => depthAfter (depth - 1) rest
  | depth, Lexeme.str _ :: rest => depthAfter depth rest

/-! ## Sequencing of outcomes -/

/-- The entries `b` dispatched after what came before them, when that returned. -/
def thenItems {σ : Type} (E : Env σ)
    (get : CString → World σ → Outcome (Option Material × World σ)) (b : List Item) :
    Outcome (Material × World σ) → Outcome (Material × World σ)
  | Outcome.ok (output, w) => setItems E get b output w
  | Outcome.nullDeref => Outcome.nullDeref
  | Outcome.outOfFuel => Outcome.outOfFuel

/-- The rest of `materialLoad`, given as `fin`, after the dispatch of entries, when that
returned. -/
def thenLoad {σ : Type} (fin : Material → World σ → Outcome (Int × Material × World σ)) :
    Outcome (Material × World σ) → Outcome (Int × Material × World σ)
  | Outcome.ok (output, w) => fin output w
  | Outcome.nullDeref => Outcome.nullDeref
  | Outcome.outOfFuel => Outcome.outOfFuel

/-- The end of `materialLoad` at a parse error (lines 142-144): the return value 0, the
record and the state as they are by then. -/
def failLoad {σ : Type} :
    Outcome (Material × World σ) → Outcome (Int × Material × World σ)
  | Outcome.ok (output, w) => Outcome.ok (0, output, w)
  | Outcome.nullDeref => Outcome.nullDeref
  | Outcome.outOfFuel => Outcome.outOfFuel

/-! ## Invariants of the caches -/

/-- Every record of the material cache has its first base texture set, and the texture
cache holds the placeholder texture. -/
def BaseTextureSet {σ : Type} (E : Env σ) (w : World σ) : Prop :=
  (∀ e ∈ w.materials, e.2.base_texture_0 ≠ none)
  ∧ E.cacheGetTexture placeholder w.textures ≠ none

/-- The definition of the name `x` is well formed, fits the buffers and has an `include`
whose name, as `materialLoad` derives it, belongs to the set `S` of names. -/
def IncludesMember {σ : Type} (E : Env σ) (S : CString → Prop) (x : CString) : Prop :=
  ∃ (file : IFile) (buf : List Char) (shader : CString) (before after : List Item)
    (ikey value y : CString),
    E.collectionChainOpen x = some file
    ∧ file.size ≤ bufferSize - 1
    ∧ file.read 0 file.size = (file.size, buf)
    ∧ E.tokenize buf = definitionLexemes shader (before ++ Item.pair ikey value :: after)
    ∧ valuesFit (before ++ Item.pair ikey value :: after) = true
    ∧ keyParam ikey = Param.includeMaterial
    ∧ includeName value = some y
    ∧ S y

/-- No name of the set `S` has a record in the material cache. -/
def Uncached {σ : Type} (S : CString → Prop) (w : World σ) : Prop :=
  ∀ y, S y → cacheGetMaterial y w = none

/-! ## A concrete environment for the examples -/

/-- A file of the collection holding the given text; `read` copies as many characters as
asked for and available. -/
def textFile (text : List Char) : IFile :=
  { size := text.length
    read := fun offset n => (min n (text.length - offset), (text.drop offset).take n) }

/-- A concrete environment over a table of files: for each name the text of the file and
the tokens of that text; names of files are compared ignoring case, as in the cache.
The texture subsystem is a list of loaded texture names; a texture reference is the
position of the name in the list, and `textureGet` loads a name that is not there
yet. -/
def tableEnv (files : List (CString × List Char × List Lexeme)) : Env (List CString) :=
  { tokenize := fun buf =>
      match files.find? (fun f => decide (f.2.1 = buf)) with
      | some f => f.2.2
      | none => []
    textureGet := fun name loaded =>
      if name ∈ loaded then (loaded.indexOf name, loaded)
      else (loaded.length, loaded ++ [name])
    cacheGetTexture := fun name loaded =>
      if name ∈ loaded then some (loaded.indexOf name) else none
    collectionChainOpen := fun name =>
      match files.find? (fun f => decide (normalize f.1 = normalize name)) with
      | some f => some (textFile f.2.1)
      | none => none }

/-- The placeholder record of the examples: its first base texture is the placeholder
texture. -/
def placeholderMaterial : Material :=
  { zeroMaterial with base_texture_0 := some 0 }

/-- The state at start-up of the examples: the placeholder texture is loaded and the
placeholder record is the only cached material. -/
def startWorld : World (List CString) :=
  { materials := [(placeholder, placeholderMaterial)], textures := [placeholder] }

/-- The text of `proxiesExample`. -/
def proxiesText : List Char :=
  ("\"shader\" \x7b \"proxies\" \x7b \"a\" \"1\" \x7b \"b\" \"2\" \x7d \x7d " ++
    "\"$basetexture\" \"foo\" \x7d").toList

/-- The text `"s" { "$basetexture" "b" "$bumpmap" "w" }`. -/
def fooText : List Char :=
  "\"s\" \x7b \"$basetexture\" \"b\" \"$bumpmap\" \"w\" \x7d".toList

/-- The tokens of `fooText`. -/
def fooLexemes : List Lexeme :=
  definitionLexemes "s".toList
    [Item.pair "$basetexture".toList "b".toList, Item.pair "$bumpmap".toList "w".toList]

/-- The text `"s" { "$basetexture" "a" "include" "materials/foo" }`. -/
def barText : List Char :=
  "\"s\" \x7b \"$basetexture\" \"a\" \"include\" \"materials/foo\" \x7d".toList

/-- The tokens of `barText`. -/
def barLexemes : List Lexeme :=
  definitionLexemes "s".toList
    [Item.pair "$basetexture".toList "a".toList,
     Item.pair "include".toList "materials/foo".toList]

/-- The text `"s" { "include" "materials/foo" "$bumpmap" "v" }`. -/
def bazText : List Char :=
  "\"s\" \x7b \"include\" \"materials/foo\" \"$bumpmap\" \"v\" \x7d".toList

/-- The tokens of `bazText`. -/
def bazLexemes : List Lexeme :=
  definitionLexemes "s".toList
    [Item.pair "include".toList "materials/foo".toList,
     Item.pair "$bumpmap".toList "v".toList]

/-- The text `"s" { "$detail" "d" "$BaseTexture" "a" "$surfaceprop" "metal" }`. -/
def texText : List Char :=
  "\"s\" \x7b \"$detail\" \"d\" \"$BaseTexture\" \"a\" \"$surfaceprop\" \"metal\" \x7d".toList

/-- The tokens of `texText`. -/
def texLexemes : List Lexeme :=
  definitionLexemes "s".toList
    [Item.pair "$detail".toList "d".toList, Item.pair "$BaseTexture".toList "a".toList,
     Item.pair "$surfaceprop".toList "metal".toList]

/-- The text `"s" { "$surfaceprop" "metal" "$Translucent" "1" }`. -/
def plainText : List Char :=
  "\"s\" \x7b \"$surfaceprop\" \"metal\" \"$Translucent\" \"1\" \x7d".toList

/-- The tokens of `plainText`. -/
def plainLexemes : List Lexeme :=
  definitionLexemes "s".toList
    (pairItems [("$surfaceprop".toList, "metal".toList), ("$Translucent".toList, "1".toList)])

/-- The text `"s" { "$basetexture" "a" "$bumpmap" }`: the last key has no value. -/
def brokenText : List Char :=
  "\"s\" \x7b \"$basetexture\" \"a\" \"$bumpmap\" \x7d".toList

/-- The tokens of `brokenText`. -/
def brokenLexemes : List Lexeme :=
  [Lexeme.str "s".toList, Lexeme.curlyOpen, Lexeme.str "$basetexture".toList,
   Lexeme.str "a".toList, Lexeme.str "$bumpmap".toList, Lexeme.curlyClose]

/-- The text `"s" { "$base" "foo" }`. -/
def shortText : List Char :=
  "\"s\" \x7b \"$base\" \"foo\" \x7d".toList

/-- The tokens of `shortText`. -/
def shortLexemes : List Lexeme :=
  definitionLexemes "s".toList [Item.pair "$base".toList "foo".toList]

/-- The files of the examples. -/
def demoFiles : List (CString × List Char × List Lexeme) :=
  [("foo".toList, fooText, fooLexemes), ("bar".toList, barText, barLexemes),
   ("baz".toList, bazText, bazLexemes), ("tex".toList, texText, texLexemes),
   ("plain".toList, plainText, plainLexemes), ("broken".toList, brokenText, brokenLexemes),
   ("short".toList, shortText, shortLexemes)]

/-- The environment of the examples. -/
def demoEnv : Env (List CString) := tableEnv demoFiles

/-- The text `"s" { }` followed by `n` blanks: a definition without entries, of `n + 7`
characters. -/
def paddedText (n : Nat) : List Char :=
  "\"s\" \x7b \x7d".toList ++ List.replicate n ' '

/-- The environment of the size examples: its tokenizer knows the texts that start with
`"s" { }`, as the padded texts do, where the tokens are those of a definition without
entries. -/
def paddedEnv : Env (List CString) :=
  { demoEnv with
    tokenize := fun buf =>
      if buf.take 7 = "\"s\" \x7b \x7d".toList then definitionLexemes "s".toList [] else [] }

/-! ## More files for the examples -/

/-- The text `"s" { }`. -/
def emptyText : List Char := "\"s\" \x7b \x7d".toList

/-- The text `"s" { "$basetexture" "a" "$FancyNewParam" "7" "$bumpmap" "v" }`. -/
def fancyText : List Char :=
  "\"s\" \x7b \"$basetexture\" \"a\" \"$FancyNewParam\" \"7\" \"$bumpmap\" \"v\" \x7d".toList

/-- The tokens of `fancyText`. -/
def fancyLexemes : List Lexeme :=
  definitionLexemes "s".toList
    [Item.pair "$basetexture".toList "a".toList, Item.pair "$FancyNewParam".toList "7".toList,
     Item.pair "$bumpmap".toList "v".toList]

/-- The text `"s" { "$basetexture" "a" "$bumpmap" "v" }`: `fancyText` without its
unknown key. -/
def nofancyText : List Char :=
  "\"s\" \x7b \"$basetexture\" \"a\" \"$bumpmap\" \"v\" \x7d".toList

/-- The tokens of `nofancyText`. -/
def nofancyLexemes : List Lexeme :=
  definitionLexemes "s".toList
    [Item.pair "$basetexture".toList "a".toList, Item.pair "$bumpmap".toList "v".toList]

/-- A value of 128 characters. -/
def longValue : CString := List.replicate 128 'x'

/-- The text `"s" { "$fancynewparam" "xx...x" }` with the value of 128 characters. -/
def fancyLongText : List Char :=
  "\"s\" \x7b \"$fancynewparam\" \"".toList ++ longValue ++ "\" \x7d".toList

/-- The tokens of `fancyLongText`. -/
def fancyLongLexemes : List Lexeme :=
  definitionLexemes "s".toList [Item.pair "$fancynewparam".toList longValue]

/-- The text `"s" { "$basetexture" "a" }`. -/
def closedText : List Char := "\"s\" \x7b \"$basetexture\" \"a\" \x7d".toList

/-- The tokens of `closedText`. -/
def closedLexemes : List Lexeme :=
  definitionLexemes "s".toList [Item.pair "$basetexture".toList "a".toList]

/-- The text `"s" { "$basetexture" "a"`, which ends without the closing brace. -/
def openText : List Char := "\"s\" \x7b \"$basetexture\" \"a\"".toList

/-- The tokens of `openText`. -/
def openLexemes : List Lexeme :=
  [Lexeme.str "s".toList, Lexeme.curlyOpen, Lexeme.str "$basetexture".toList,
   Lexeme.str "a".toList]

/-- The text `"s" { "$basetexture" "a" } "$bumpmap" { }`, with tokens after the closing
brace. -/
def trailingText : List Char :=
  "\"s\" \x7b \"$basetexture\" \"a\" \x7d \"$bumpmap\" \x7b \x7d".toList

/-- The tokens of `trailingText`. -/
def trailingLexemes : List Lexeme :=
  [Lexeme.str "s".toList, Lexeme.curlyOpen, Lexeme.str "$basetexture".toList,
   Lexeme.str "a".toList, Lexeme.curlyClose, Lexeme.str "$bumpmap".toList,
   Lexeme.curlyOpen, Lexeme.curlyClose]

/-- The text `"s" { "$basetexture" "a" "proxies" { "x" { "y"`: two blocks are
left open. -/
def unclosedText : List Char :=
  "\"s\" \x7b \"$basetexture\" \"a\" \"proxies\" \x7b \"x\" \x7b \"y\"".toList

/-- The tokens of `unclosedText`. -/
def unclosedTokens : List Lexeme :=
  [Lexeme.str "s".toList, Lexeme.curlyOpen, Lexeme.str "$basetexture".toList,
   Lexeme.str "a".toList, Lexeme.str "proxies".toList, Lexeme.curlyOpen,
   Lexeme.str "x".toList, Lexeme.curlyOpen, Lexeme.str "y".toList]

/-- The text `{ "s" }`, which starts with a brace. -/
def badHeaderText : List Char := "\x7b \"s\" \x7d".toList

/-- The tokens of `badHeaderText`. -/
def badHeaderLexemes : List Lexeme :=
  [Lexeme.curlyOpen, Lexeme.str "s".toList, Lexeme.curlyClose]

/-- The text `"s" { "include" "materials/foo.vmtx" }`. -/
def vmtText : List Char := "\"s\" \x7b \"include\" \"materials/foo.vmtx\" \x7d".toList

/-- The tokens of `vmtText`. -/
def vmtLexemes : List Lexeme :=
  definitionLexemes "s".toList [Item.pair "include".toList "materials/foo.vmtx".toList]

/-- The text `"s" { "$basetexture" "a" "include" "materials/cycle" }` of a definition
named `cycle`, which includes itself. -/
def cycleText : List Char :=
  "\"s\" \x7b \"$basetexture\" \"a\" \"include\" \"materials/cycle\" \x7d".toList

/-- The tokens of `cycleText`. -/
def cycleLexemes : List Lexeme :=
  definitionLexemes "s".toList
    [Item.pair "$basetexture".toList "a".toList,
     Item.pair "include".toList "materials/cycle".toList]

/-- The files of the examples, with some more. -/
def moreFiles : List (CString × List Char × List Lexeme) :=
  demoFiles ++
  [("empty".toList, emptyText, definitionLexemes "s".toList []),
   ("fancy".toList, fancyText, fancyLexemes),
   ("nofancy".toList, nofancyText, nofancyLexemes),
   ("fancylong".toList, fancyLongText, fancyLongLexemes),
   ("closed".toList, closedText, closedLexemes),
   ("open".toList, openText, openLexemes),
   ("trailing".toList, trailingText, trailingLexemes),
   ("unclosed".toList, unclosedText, unclosedTokens),
   ("badheader".toList, badHeaderText, badHeaderLexemes),
   ("vmt".toList, vmtText, vmtLexemes),
   ("cycle".toList, cycleText, cycleLexemes)]

/-- The environment of the further examples. -/
def moreEnv : Env (List CString) := tableEnv moreFiles

/-! ## The key/value reader: auxiliary facts -/

theorem skipSection_length (l : List Lexeme) :
    ∀ (d : Int) (s : CString), (skipSection d l s).2.cursor.length ≤ l.length := by
  induction l with
  | nil => intro d s; simp [skipSection]
  | cons x rest ih =>
    intro d s
    cases x with
    | str t => simp only [skipSection, List.length_cons]; exact Nat.le_succ_of_le (ih d t)
    | curlyOpen =>
      simp only [skipSection, List.length_cons]; exact Nat.le_succ_of_le (ih (d + 1) s)
    | curlyClose =>
      simp only [skipSection, List.length_cons]
      split
      · simp
      · exact Nat.le_succ_of_le (ih (d - 1) s)

theorem skipSection_str (d : Int) (t : CString) (l : List Lexeme) (s : CString) :
    skipSection d (Lexeme.str t :: l) s = skipSection d l t := rfl

theorem skipSection_open (d : Int) (l : List Lexeme) (s : CString) :
    skipSection d (Lexeme.curlyOpen :: l) s = skipSection (d + 1) l s := rfl

theorem skipSection_close (d : Int) (l : List Lexeme) (s : CString) :
    skipSection d (Lexeme.curlyClose :: l) s
      = if d - 1 = 0 then (true, { cursor := l, str := s }) else skipSection (d - 1) l s :=
  rfl

/-- In skip mode the content of a block is consumed whole and leaves the depth as it
was. -/
theorem skipSection_body (b : Body) :
    ∀ (d : Int) (tail : List Lexeme) (s : CString), 1 ≤ d →
      skipSection d (b.lexemes ++ tail) s = skipSection d tail (b.lastStr s) := by
  induction b with
  | nil => intro d tail s _; rfl
  | str t rest ih =>
    intro d tail s hd
    show skipSection d (Lexeme.str t :: (rest.lexemes ++ tail)) s = _
    rw [skipSection_str]
    exact ih d tail t hd
  | block inner rest ihi ihr =>
    intro d tail s hd
    show skipSection d (Lexeme.curlyOpen ::
      ((inner.lexemes ++ Lexeme.curlyClose :: rest.lexemes) ++ tail)) s = _
    rw [skipSection_open, List.append_assoc, ihi (d + 1) _ s (by omega), List.cons_append,
      skipSection_close]
    have h : ¬ (d + 1 - 1 = 0) := by omega
    rw [if_neg h]
    have h2 : d + 1 - 1 = d := by omega
    rw [h2]
    exact ihr d tail _ hd

/-- One iteration of the loop on a key followed by an opening brace. -/
theorem getNextKeyValueLoop_open (n : Nat) (key : CString) (l : List Lexeme)
    (s k v : CString) :
    getNextKeyValueLoop (n + 1)
        { tok := { cursor := Lexeme.str key :: Lexeme.curlyOpen :: l, str := s },
          key := k, value := v }
      = match skipSection 1 l key with
        | (true, tok) => getNextKeyValueLoop n { tok := tok, key := key, value := v }
        | (false, tok) =>
          (KeyValueResult.KeyValue_Error, { tok := tok, key := key, value := v }) := rfl

/-- The iteration bound of `getNextKeyValueLoop` is never reached when it exceeds the
number of tokens left: the result does not depend on it. -/
theorem getNextKeyValueLoop_budget :
    ∀ (n m : Nat) (ctx : MaterialContext),
      ctx.tok.cursor.length < n → ctx.tok.cursor.length < m →
      getNextKeyValueLoop n ctx = getNextKeyValueLoop m ctx := by
  intro n
  induction n with
  | zero => intro m ctx h; omega
  | succ n ih =>
    intro m ctx hn hm
    cases m with
    | zero => omega
    | succ m =>
      obtain ⟨⟨cursor, s⟩, k, v⟩ := ctx
      cases cursor with
      | nil => rfl
      | cons x rest =>
        cases x with
        | curlyOpen => rfl
        | curlyClose => rfl
        | str key =>
          cases rest with
          | nil => rfl
          | cons y rest2 =>
            cases y with
            | str value => rfl
            | curlyClose => rfl
            | curlyOpen =>
              rw [getNextKeyValueLoop_open, getNextKeyValueLoop_open]
              have hlen := skipSection_length rest2 1 key
              cases hsk : skipSection 1 rest2 key with
              | mk ok tok =>
                rw [hsk] at hlen
                simp only [List.length_cons] at hn hm hlen
                cases ok with
                | false => rfl
                | true =>
                  exact ih m _ (by simp only; omega) (by simp only; omega)

/-- With enough iterations the loop is `getNextKeyValue`. -/
theorem getNextKeyValueLoop_eq (n : Nat) (ctx : MaterialContext)
    (h : ctx.tok.cursor.length < n) : getNextKeyValueLoop n ctx = getNextKeyValue ctx :=
  getNextKeyValueLoop_budget n _ ctx h (Nat.lt_succ_self _)

/-- A key followed by a block: the block is skipped and the reader goes on with the
tokens after it. -/
theorem getNextKeyValue_block (key : CString) (body : Body) (rest : List Lexeme)
    (s k v : CString) :
    getNextKeyValue
        { tok := { cursor := Lexeme.str key :: Lexeme.curlyOpen ::
                     (body.lexemes ++ Lexeme.curlyClose :: rest), str := s },
          key := k, value := v }
      = getNextKeyValue
          { tok := { cursor := rest, str := body.lastStr key }, key := key, value := v } := by
  unfold getNextKeyValue
  rw [getNextKeyValueLoop_open, skipSection_body body 1 _ key (le_refl _), skipSection_close]
  have h : (1 : Int) - 1 = 0 := by decide
  rw [if_pos h]
  apply getNextKeyValueLoop_budget
  · simp only [List.length_append, List.length_cons]; omega
  · simp only; omega

/-- The key and the string span that come with the context only pass through the
reader: result, remaining tokens and value do not depend on them, and after
`KeyValue_Read` neither does the key. -/
theorem getNextKeyValueLoop_passthrough :
    ∀ (n : Nat) (cursor : List Lexeme) (s1 s2 k1 k2 v : CString),
      let r1 := getNextKeyValueLoop n { tok := { cursor := cursor, str := s1 }, key := k1, value := v }
      let r2 := getNextKeyValueLoop n { tok := { cursor := cursor, str := s2 }, key := k2, value := v }
      r1.1 = r2.1 ∧ r1.2.tok.cursor = r2.2.tok.cursor ∧ r1.2.value = r2.2.value ∧
        (r1.1 = KeyValueResult.KeyValue_Read → r1.2.key = r2.2.key) := by
  intro n
  induction n with
  | zero => intro cursor s1 s2 k1 k2 v; simp [getNextKeyValueLoop]
  | succ n ih =>
    intro cursor s1 s2 k1 k2 v
    cases cursor with
    | nil => simp [getNextKeyValueLoop, getNextToken]
    | cons x rest =>
      cases x with
      | curlyOpen => simp [getNextKeyValueLoop, getNextToken]
      | curlyClose => simp [getNextKeyValueLoop, getNextToken]
      | str key =>
        cases rest with
        | nil => simp [getNextKeyValueLoop, getNextToken]
        | cons y rest2 =>
          cases y with
          | str value =>
            simp only [getNextKeyValueLoop, getNextToken]
            split <;> simp
          | curlyClose => simp [getNextKeyValueLoop, getNextToken]
          | curlyOpen => simp [getNextKeyValueLoop, getNextToken]

/-! ## `materialLoad`: auxiliary facts -/

/-- The reader never gives tokens back, and a pair it has read cost at least two. -/
theorem getNextKeyValueLoop_cursor :
    ∀ (n : Nat) (ctx : MaterialContext),
      (getNextKeyValueLoop n ctx).2.tok.cursor.length ≤ ctx.tok.cursor.length
        ∧ ((getNextKeyValueLoop n ctx).1 = KeyValueResult.KeyValue_Read →
            (getNextKeyValueLoop n ctx).2.tok.cursor.length + 2 ≤ ctx.tok.cursor.length) := by
  intro n
  induction n with
  | zero => intro ctx; simp [getNextKeyValueLoop]
  | succ n ih =>
    intro ctx
    obtain ⟨⟨cursor, s⟩, k, v⟩ := ctx
    cases cursor with
    | nil => simp [getNextKeyValueLoop, getNextToken]
    | cons x rest =>
      cases x with
      | curlyOpen => simp [getNextKeyValueLoop, getNextToken]
      | curlyClose => simp [getNextKeyValueLoop, getNextToken]
      | str key =>
        cases rest with
        | nil => simp [getNextKeyValueLoop, getNextToken]
        | cons y rest2 =>
          cases y with
          | str value =>
            simp only [getNextKeyValueLoop, getNextToken]
            split <;> simp <;> omega
          | curlyClose => simp [getNextKeyValueLoop, getNextToken]; omega
          | curlyOpen =>
            rw [getNextKeyValueLoop_open]
            have hlen := skipSection_length rest2 1 key
            cases hsk : skipSection 1 rest2 key with
            | mk ok tok =>
              rw [hsk] at hlen
              simp only [List.length_cons] at hlen ⊢
              cases ok with
              | false =>
                simp only
                exact ⟨by omega, fun h => by cases h⟩
              | true =>
                have h3 := ih { tok := tok, key := key, value := v }
                simp only at h3 ⊢
                exact ⟨by omega, fun h => by have := h3.2 h; omega⟩

/-- The iteration bound of `materialLoop` is never reached when it exceeds the number of
tokens left: the result does not depend on it. -/
theorem materialLoop_budget {σ : Type} (E : Env σ)
    (get : CString → World σ → Outcome (Option Material × World σ)) :
    ∀ (k1 k2 : Nat) (ctx : MaterialContext) (output : Material) (w : World σ),
      ctx.tok.cursor.length < k1 → ctx.tok.cursor.length < k2 →
      materialLoop E get k1 ctx output w = materialLoop E get k2 ctx output w := by
  intro k1
  induction k1 with
  | zero => intro k2 ctx output w h; omega
  | succ k1 ih =>
    intro k2 ctx output w h1 h2
    cases k2 with
    | zero => omega
    | succ k2 =>
      have hcur := getNextKeyValueLoop_cursor (ctx.tok.cursor.length + 1) ctx
      simp only [materialLoop]
      change (getNextKeyValue ctx).2.tok.cursor.length ≤ _ ∧ ((getNextKeyValue ctx).1 = _ →
        (getNextKeyValue ctx).2.tok.cursor.length + 2 ≤ _) at hcur
      cases hkv : getNextKeyValue ctx with
      | mk res ctx1 =>
        rw [hkv] at hcur
        cases res with
        | KeyValue_End => rfl
        | KeyValue_Error => rfl
        | KeyValue_Read =>
          simp only
          have h3 := hcur.2 rfl
          simp only at h3
          cases hset : setParam E get (keyParam ctx1.key) ctx1.value output w with
          | ok q => exact ih k2 ctx1 q.1 q.2 (by omega) (by omega)
          | nullDeref => rfl
          | outOfFuel => rfl

/-- A pair whose value fits the buffer is read. -/
theorem getNextKeyValue_pair (key value : CString) (rest : List Lexeme) (s k v : CString)
    (h : value.length ≤ valueCapacity - 1) :
    getNextKeyValue
        { tok := { cursor := Lexeme.str key :: Lexeme.str value :: rest, str := s },
          key := k, value := v }
      = (KeyValueResult.KeyValue_Read,
          { tok := { cursor := rest, str := value }, key := key, value := value }) := by
  have h2 : ¬ (value.length > valueCapacity - 1) := by omega
  simp only [getNextKeyValue, getNextKeyValueLoop, getNextToken, List.length_cons]
  rw [if_neg h2]

/-- After the header of a definition `materialLoad` is its loop on the rest of the
tokens. -/
theorem materialLoad_eq {σ : Type} (E : Env σ)
    (get : CString → World σ → Outcome (Option Material × World σ))
    (file : IFile) (output : Material) (w : World σ) (buf : List Char)
    (shader : CString) (l : List Lexeme)
    (hsize : file.size ≤ bufferSize - 1)
    (hread : file.read 0 file.size = (file.size, buf))
    (htok : E.tokenize buf = Lexeme.str shader :: Lexeme.curlyOpen :: l) :
    materialLoad E get file output w
      = materialLoop E get (l.length + 1)
          { tok := { cursor := l, str := shader }, key := [], value := [] } output w := by
  have h1 : ¬ (file.size > bufferSize - 1) := by omega
  unfold materialLoad
  rw [if_neg h1]
  simp only [hread, htok, getNextToken, ne_eq, not_true_eq_false, if_false]

/-- The loop of `materialLoad` on the entries of a definition followed by the closing
brace, or by the end of the input. -/
theorem materialLoop_items {σ : Type} (E : Env σ)
    (get : CString → World σ → Outcome (Option Material × World σ))
    (tail : List Lexeme) (htail : tail = [] ∨ ∃ rest, tail = Lexeme.curlyClose :: rest) :
    ∀ (items : List Item), valuesFit items = true →
      ∀ (k : Nat) (s key v : CString) (output : Material) (w : World σ),
        (itemsLexemes items ++ tail).length < k →
        materialLoop E get k
            { tok := { cursor := itemsLexemes items ++ tail, str := s }, key := key,
              value := v } output w
          = finishLoad E (setItems E get items output w) := by
  intro items
  induction items with
  | nil =>
    intro _ k s key v output w hk
    cases k with
    | zero => omega
    | succ k =>
      rcases htail with h | ⟨rest, h⟩ <;> subst h <;> rfl
  | cons it items ih =>
    intro hfit k s key v output w hk
    cases k with
    | zero => omega
    | succ k =>
      cases it with
      | pair pk pv =>
        simp only [valuesFit, Bool.and_eq_true, decide_eq_true_eq] at hfit
        show materialLoop E get (k + 1)
          { tok := { str := s,
                     cursor := Lexeme.str pk :: Lexeme.str pv :: (itemsLexemes items ++ tail) },
            key := key, value := v } output w = _
        simp only [materialLoop, getNextKeyValue_pair pk pv _ s key v hfit.1, setItems]
        cases hset : setParam E get (keyParam pk) pv output w with
        | ok r =>
          obtain ⟨output1, w1⟩ := r
          simp only
          apply ih hfit.2
          simp only [itemsLexemes, Item.lexemes, List.cons_append, List.nil_append,
            List.length_cons] at hk
          omega
        | nullDeref => rfl
        | outOfFuel => rfl
      | block bk body =>
        simp only [valuesFit] at hfit
        have hcur : itemsLexemes (Item.block bk body :: items) ++ tail
            = Lexeme.str bk :: Lexeme.curlyOpen ::
                (body.lexemes ++ Lexeme.curlyClose :: (itemsLexemes items ++ tail)) := by
          simp [itemsLexemes, Item.lexemes]
        rw [hcur] at hk ⊢
        have hstep : materialLoop E get (k + 1)
            { tok := { str := s, cursor := Lexeme.str bk :: Lexeme.curlyOpen ::
                (body.lexemes ++ Lexeme.curlyClose :: (itemsLexemes items ++ tail)) },
              key := key, value := v } output w
            = materialLoop E get (k + 1)
                { tok := { cursor := itemsLexemes items ++ tail, str := body.lastStr bk },
                  key := bk, value := v } output w := by
          simp only [materialLoop, getNextKeyValue_block]
        rw [hstep]
        simp only [setItems]
        apply ih hfit
        simp only [List.length_cons, List.length_append] at hk ⊢
        omega

/-- The function `materialLoad` on a well-formed definition whose values fit the value
buffer: the entries are dispatched in order, then the placeholder is applied. -/
theorem materialLoad_definition {σ : Type} (E : Env σ)
    (get : CString → World σ → Outcome (Option Material × World σ))
    (file : IFile) (output : Material) (w : World σ) (buf : List Char)
    (shader : CString) (items : List Item)
    (hsize : file.size ≤ bufferSize - 1)
    (hread : file.read 0 file.size = (file.size, buf))
    (htok : E.tokenize buf = definitionLexemes shader items)
    (hfit : valuesFit items = true) :
    materialLoad E get file output w = finishLoad E (setItems E get items output w) := by
  rw [materialLoad_eq E get file output w buf shader _ hsize hread htok]
  exact materialLoop_items E get [Lexeme.curlyClose] (Or.inr ⟨[], rfl⟩) items hfit _ _ _ _ _ _
    (Nat.lt_succ_self _)

/-! ## Keys and the cache: auxiliary facts -/

theorem toNat_ofNat_lower (n : Nat) (h1 : 65 ≤ n) (h2 : n ≤ 90) :
    (Char.ofNat (n + 32)).toNat = n + 32 := by
  interval_cases n <;> rfl

theorem tolower_tolower (c : Char) : tolower (tolower c) = tolower c := by
  unfold tolower
  by_cases h : 65 ≤ c.toNat ∧ c.toNat ≤ 90
  · rw [if_pos h]
    have h3 := toNat_ofNat_lower c.toNat h.1 h.2
    have h4 : ¬ (65 ≤ (Char.ofNat (c.toNat + 32)).toNat
        ∧ (Char.ofNat (c.toNat + 32)).toNat ≤ 90) := by
      rw [h3]; omega
    rw [if_neg h4]
  · rw [if_neg h, if_neg h]

/-- The comparison sees the key only through its lowered characters. -/
theorem strncasecmp_normalize (e : CString) :
    ∀ (key : CString) (n : Nat),
      strncasecmp e (normalize key) n = strncasecmp e key n := by
  induction e with
  | nil =>
    intro key n
    cases n with
    | zero => cases key <;> rfl
    | succ n =>
      cases key with
      | nil => rfl
      | cons b bs => simp only [normalize, List.map_cons, strncasecmp, tolower_tolower]
  | cons a s1 ih =>
    intro key n
    cases n with
    | zero => cases key <;> rfl
    | succ n =>
      cases key with
      | nil => rfl
      | cons b bs =>
        simp only [normalize, List.map_cons, strncasecmp, tolower_tolower]
        rw [← ih bs n]
        rfl

theorem normalize_length (key : CString) : (normalize key).length = key.length := by
  simp [normalize]

/-- The dispatch sees the key only through its lowered characters. -/
theorem keyParam_normalize (key : CString) : keyParam (normalize key) = keyParam key := by
  simp only [keyParam, keyMatches, normalize_length, strncasecmp_normalize]

/-- Every entry of `ignore_params` and every no-op key, spelled exactly, reaches a branch
without effect. -/
theorem keyParam_ignorable :
    ∀ e ∈ ignore_params ++ noop_params,
      keyParam e = Param.ignored ∨ keyParam e = Param.noop := by
  decide

theorem cacheGetMaterial_textures {σ : Type} (x : CString) (w : World σ) (t : σ) :
    cacheGetMaterial x { w with textures := t } = cacheGetMaterial x w := rfl

theorem cacheGetMaterial_congr {σ : Type} (x y : CString) (w : World σ)
    (h : normalize x = normalize y) : cacheGetMaterial x w = cacheGetMaterial y w := by
  simp only [cacheGetMaterial, h]

theorem cacheGetMaterial_put_same {σ : Type} (name : CString) (mat : Material)
    (w : World σ) : cacheGetMaterial name (cachePutMaterial name mat w) = some mat := by
  simp [cacheGetMaterial, cachePutMaterial]

theorem cacheGetMaterial_put_other {σ : Type} (x name : CString) (mat : Material)
    (w : World σ) (h : normalize name ≠ normalize x) :
    cacheGetMaterial x (cachePutMaterial name mat w) = cacheGetMaterial x w := by
  obtain ⟨materials, textures⟩ := w
  simp only [cacheGetMaterial, cachePutMaterial]
  rw [List.find?_cons_of_neg _ (by simpa using h)]
  congr 1
  induction materials with
  | nil => rfl
  | cons e rest ih =>
    by_cases he : normalize e.1 = normalize name
    · have hx : ¬ normalize e.1 = normalize x := fun h2 => h (he.symm.trans h2)
      rw [List.filter_cons_of_neg (by simpa using he), List.find?_cons_of_neg _ (by simpa using hx)]
      exact ih
    · rw [List.filter_cons_of_pos (by simpa using he)]
      by_cases hx : normalize e.1 = normalize x
      · rw [List.find?_cons_of_pos _ (by simpa using hx),
          List.find?_cons_of_pos _ (by simpa using hx)]
      · rw [List.find?_cons_of_neg _ (by simpa using hx),
          List.find?_cons_of_neg _ (by simpa using hx)]
        exact ih

/-! ## Dispatch of the entries: auxiliary facts -/

theorem setItems_append {σ : Type} (E : Env σ)
    (get : CString → World σ → Outcome (Option Material × World σ))
    (a b : List Item) :
    ∀ (output : Material) (w : World σ) (o1 : Material) (w1 : World σ),
      setItems E get a output w = Outcome.ok (o1, w1) →
      setItems E get (a ++ b) output w = setItems E get b o1 w1 := by
  induction a with
  | nil =>
    intro output w o1 w1 h
    simp only [setItems, Outcome.ok.injEq, Prod.mk.injEq] at h
    rw [List.nil_append, h.1, h.2]
  | cons it rest ih =>
    intro output w o1 w1 h
    cases it with
    | block bk body => exact ih output w o1 w1 h
    | pair pk pv =>
      simp only [List.cons_append, setItems] at h ⊢
      cases hset : setParam E get (keyParam pk) pv output w with
      | ok r =>
        rw [hset] at h
        exact ih r.1 r.2 o1 w1 h
      | nullDeref => rw [hset] at h; cases h
      | outOfFuel => rw [hset] at h; cases h

/-- A branch other than `$basetexture` and `include` leaves the first base texture as it
is. -/
theorem setParam_base_texture_0 {σ : Type} (E : Env σ)
    (get : CString → World σ → Outcome (Option Material × World σ))
    (p : Param) (value : CString) (output o1 : Material) (w w1 : World σ)
    (hp : p ≠ Param.basetexture ∧ p ≠ Param.includeMaterial)
    (h : setParam E get p value output w = Outcome.ok (o1, w1)) :
    o1.base_texture_0 = output.base_texture_0 := by
  cases p <;> simp only [setParam, Outcome.ok.injEq, Prod.mk.injEq] at h <;>
    first
    | exact absurd rfl hp.1
    | exact absurd rfl hp.2
    | (rw [← h.1])

theorem setItems_base_texture_0 {σ : Type} (E : Env σ)
    (get : CString → World σ → Outcome (Option Material × World σ))
    (items : List Item) :
    ∀ (output o1 : Material) (w w1 : World σ),
      (∀ k x, Item.pair k x ∈ items →
        keyParam k ≠ Param.basetexture ∧ keyParam k ≠ Param.includeMaterial) →
      setItems E get items output w = Outcome.ok (o1, w1) →
      o1.base_texture_0 = output.base_texture_0 := by
  induction items with
  | nil =>
    intro output o1 w w1 _ h
    simp only [setItems, Outcome.ok.injEq, Prod.mk.injEq] at h
    rw [h.1]
  | cons it rest ih =>
    intro output o1 w w1 hkeys h
    have hrest : ∀ k x, Item.pair k x ∈ rest →
        keyParam k ≠ Param.basetexture ∧ keyParam k ≠ Param.includeMaterial :=
      fun k x hm => hkeys k x (List.mem_cons_of_mem _ hm)
    cases it with
    | block bk body => exact ih output o1 w w1 hrest h
    | pair pk pv =>
      simp only [setItems] at h
      cases hset : setParam E get (keyParam pk) pv output w with
      | ok r =>
        rw [hset] at h
        rw [ih r.1 o1 r.2 w1 hrest h]
        exact setParam_base_texture_0 E get _ pv output r.1 w r.2
          (hkeys pk pv (List.mem_cons_self _ _)) hset
      | nullDeref => rw [hset] at h; cases h
      | outOfFuel => rw [hset] at h; cases h

theorem valuesFit_append (a b : List Item) :
    valuesFit (a ++ b) = (valuesFit a && valuesFit b) := by
  induction a with
  | nil => rfl
  | cons it rest ih =>
    cases it with
    | pair pk pv =>
      show (decide (pv.length ≤ valueCapacity - 1) && valuesFit (rest ++ b)) = _
      rw [ih]
      simp only [valuesFit, Bool.and_assoc]
    | block bk body =>
      show valuesFit (rest ++ b) = _
      rw [ih]
      rfl

theorem valuesFit_pairItems (pairs : List (CString × CString))
    (h : ∀ p ∈ pairs, p.2.length ≤ 127) : valuesFit (pairItems pairs) = true := by
  induction pairs with
  | nil => rfl
  | cons p rest ih =>
    simp only [pairItems, List.map_cons, valuesFit, Bool.and_eq_true, decide_eq_true_eq]
    exact ⟨h p (List.mem_cons_self _ _), ih (fun q hq => h q (List.mem_cons_of_mem _ hq))⟩

/-- Keys that are, ignoring case, entries of `ignore_params` or no-op keys change neither
the record nor the state. -/
theorem setItems_ignorable {σ : Type} (E : Env σ)
    (get : CString → World σ → Outcome (Option Material × World σ))
    (pairs : List (CString × CString)) (output : Material) (w : World σ)
    (h : ∀ p ∈ pairs, normalize p.1 ∈ ignore_params ++ noop_params) :
    setItems E get (pairItems pairs) output w = Outcome.ok (output, w) := by
  induction pairs with
  | nil => rfl
  | cons p rest ih =>
    have hp := keyParam_ignorable _ (h p (List.mem_cons_self _ _))
    rw [keyParam_normalize] at hp
    simp only [pairItems, List.map_cons, setItems]
    rcases hp with hp | hp <;> rw [hp] <;> simp only [setParam] <;>
      exact ih (fun q hq => h q (List.mem_cons_of_mem _ hq))

/-- A call of `materialGet` that misses the cache and whose `materialLoad` returns 1:
the record is stored under the name and returned from the cache. -/
theorem materialGet_of_load {σ : Type} (E : Env σ) (n : Nat) (name : CString)
    (w w1 : World σ) (file : IFile) (mat : Material)
    (hmiss : cacheGetMaterial name w = none)
    (hopen : E.collectionChainOpen name = some file)
    (hload : materialLoad E (materialGet E n) file zeroMaterial w = Outcome.ok (1, mat, w1)) :
    materialGet E (n + 1) name w = Outcome.ok (some mat, cachePutMaterial name mat w1) := by
  simp only [materialGet, hmiss, hopen, hload, cacheGetMaterial_put_same]
  rfl

/-! ## The material cache across calls: auxiliary facts -/

theorem CacheStep.refl {σ : Type} (E : Env σ) (w : World σ) : CacheStep E w w :=
  ⟨fun _ _ h => h, fun _ h h1 => absurd h h1⟩

theorem CacheStep.trans {σ : Type} {E : Env σ} {w w1 w2 : World σ}
    (h1 : CacheStep E w w1) (h2 : CacheStep E w1 w2) : CacheStep E w w2 := by
  refine ⟨fun x m h => h2.1 x m (h1.1 x m h), fun x h hne => ?_⟩
  cases h3 : cacheGetMaterial x w1 with
  | none => exact h2.2 x h3 hne
  | some m => exact h1.2 x h (by rw [h3]; exact Option.some_ne_none m)

theorem CacheStep.textures {σ : Type} (E : Env σ) (w : World σ) (t : σ) :
    CacheStep E w { w with textures := t } :=
  ⟨fun _ _ h => h, fun _ h h1 => absurd h h1⟩

theorem setParam_cacheStep {σ : Type} (E : Env σ)
    (get : CString → World σ → Outcome (Option Material × World σ))
    (hget : ∀ nm w r w1, get nm w = Outcome.ok (r, w1) → CacheStep E w w1)
    (p : Param) (value : CString) (output o1 : Material) (w w1 : World σ)
    (h : setParam E get p value output w = Outcome.ok (o1, w1)) : CacheStep E w w1 := by
  cases p
  case includeMaterial =>
    simp only [setParam] at h
    cases hn : includeName value with
    | none =>
      rw [hn] at h
      simp only [Outcome.ok.injEq, Prod.mk.injEq] at h
      rw [← h.2]
      exact CacheStep.refl E w
    | some name =>
      rw [hn] at h
      simp only at h
      cases hg : get name w with
      | ok r =>
        obtain ⟨r1, r2⟩ := r
        rw [hg] at h
        cases r1 with
        | none => cases h
        | some mat =>
          simp only [Outcome.ok.injEq, Prod.mk.injEq] at h
          rw [← h.2]
          exact hget name w _ _ hg
      | nullDeref => rw [hg] at h; cases h
      | outOfFuel => rw [hg] at h; cases h
  all_goals
    simp only [setParam, Outcome.ok.injEq, Prod.mk.injEq] at h
    rw [← h.2]
    exact CacheStep.refl E w

/-- The return value of the loop of `materialLoad` is determined by the tokens, and the
loop acts on the cache only through `include`. -/
theorem materialLoop_cacheStep {σ : Type} (E : Env σ)
    (get : CString → World σ → Outcome (Option Material × World σ))
    (hget : ∀ nm w r w1, get nm w = Outcome.ok (r, w1) → CacheStep E w w1) :
    ∀ (k : Nat) (ctx : MaterialContext) (output o1 : Material) (w w1 : World σ) (r : Int),
      materialLoop E get k ctx output w = Outcome.ok (r, o1, w1) →
      CacheStep E w w1 ∧ r = statusInt (parseStatus k ctx) := by
  intro k
  induction k with
  | zero => intro ctx output o1 w w1 r h; cases h
  | succ k ih =>
    intro ctx output o1 w w1 r h
    simp only [materialLoop, parseStatus] at h ⊢
    cases hkv : getNextKeyValue ctx with
    | mk res ctx1 =>
      rw [hkv] at h
      cases res with
      | KeyValue_End =>
        simp only [Outcome.ok.injEq, Prod.mk.injEq] at h
        rw [← h.2.2, ← h.1]
        exact ⟨CacheStep.refl E w, rfl⟩
      | KeyValue_Error =>
        simp only [Outcome.ok.injEq, Prod.mk.injEq] at h
        rw [← h.2.2, ← h.1]
        exact ⟨CacheStep.refl E w, rfl⟩
      | KeyValue_Read =>
        simp only at h ⊢
        cases hset : setParam E get (keyParam ctx1.key) ctx1.value output w with
        | ok q =>
          obtain ⟨o2, w2⟩ := q
          rw [hset] at h
          have h3 := ih ctx1 o2 o1 w2 w1 r h
          exact ⟨(setParam_cacheStep E get hget _ _ _ _ _ _ hset).trans h3.1, h3.2⟩
        | nullDeref => rw [hset] at h; cases h
        | outOfFuel => rw [hset] at h; cases h

theorem materialLoad_cacheStep {σ : Type} (E : Env σ)
    (get : CString → World σ → Outcome (Option Material × World σ))
    (hget : ∀ nm w r w1, get nm w = Outcome.ok (r, w1) → CacheStep E w w1)
    (file : IFile) (output o1 : Material) (w w1 : World σ) (r : Int)
    (h : materialLoad E get file output w = Outcome.ok (r, o1, w1)) :
    CacheStep E w w1 ∧ r = statusInt (loadStatus E file) := by
  unfold materialLoad at h
  unfold loadStatus
  have stop : ∀ {b : Bool}, b = false →
      Outcome.ok ((0 : Int), output, w) = Outcome.ok (r, o1, w1) →
      CacheStep E w w1 ∧ r = statusInt b := by
    intro b hb h0
    simp only [Outcome.ok.injEq, Prod.mk.injEq] at h0
    rw [← h0.2.2, ← h0.1, hb]
    exact ⟨CacheStep.refl E w, rfl⟩
  by_cases h1 : file.size > bufferSize - 1
  · rw [if_pos h1] at h ⊢
    exact stop rfl h
  · rw [if_neg h1] at h ⊢
    simp only at h ⊢
    by_cases h2 : file.size ≠ (file.read 0 file.size).1
    · rw [if_pos h2] at h ⊢
      exact stop rfl h
    · rw [if_neg h2] at h ⊢
      cases ht1 : getNextToken { cursor := E.tokenize (file.read 0 file.size).2, str := [] } with
      | mk ty1 tok1 =>
        rw [ht1] at h
        cases ty1 with
        | Token_String =>
          simp only at h ⊢
          cases ht2 : getNextToken tok1 with
          | mk ty2 tok2 =>
            rw [ht2] at h
            cases ty2 with
            | Token_CurlyOpen => exact materialLoop_cacheStep E get hget _ _ _ _ _ _ _ h
            | Token_String => exact stop rfl h
            | Token_CurlyClose => exact stop rfl h
            | Token_End => exact stop rfl h
        | Token_CurlyOpen => exact stop rfl h
        | Token_CurlyClose => exact stop rfl h
        | Token_End => exact stop rfl h

/-- A call of `materialGet` keeps every cached record and adds records only under names
whose definition can be loaded. -/
theorem materialGet_cacheStep {σ : Type} (E : Env σ) :
    ∀ (n : Nat) (name : CString) (w : World σ) (r : Option Material) (w1 : World σ),
      materialGet E n name w = Outcome.ok (r, w1) → CacheStep E w w1 := by
  intro n
  induction n with
  | zero => intro name w r w1 h; cases h
  | succ n ih =>
    intro name w r w1 h
    simp only [materialGet] at h
    cases hc : cacheGetMaterial name w with
    | some mat =>
      rw [hc] at h
      simp only [Outcome.ok.injEq, Prod.mk.injEq] at h
      rw [← h.2]
      exact CacheStep.refl E w
    | none =>
      rw [hc] at h
      simp only at h
      cases ho : E.collectionChainOpen name with
      | none =>
        rw [ho] at h
        simp only [Outcome.ok.injEq, Prod.mk.injEq] at h
        rw [← h.2]
        exact CacheStep.refl E w
      | some file =>
        rw [ho] at h
        simp only at h
        cases hl : materialLoad E (materialGet E n) file zeroMaterial w with
        | nullDeref => rw [hl] at h; cases h
        | outOfFuel => rw [hl] at h; cases h
        | ok q =>
          obtain ⟨ret, localmat, w2⟩ := q
          rw [hl] at h
          have hstep := materialLoad_cacheStep E (materialGet E n) ih file _ _ _ _ _ hl
          simp only at h
          by_cases hr : ret = 0
          · rw [if_pos hr] at h
            simp only [Outcome.ok.injEq, Prod.mk.injEq] at h
            rw [← h.2]
            exact hstep.1
          · rw [if_neg hr, cacheGetMaterial_put_same] at h
            simp only [Outcome.ok.injEq, Prod.mk.injEq] at h
            rw [← h.2]
            have hst : loadStatus E file = true := by
              cases hls : loadStatus E file with
              | true => rfl
              | false =>
                rw [hls] at hstep
                exact absurd hstep.2 hr
            refine ⟨fun x m hx => ?_, fun x hx hne => ?_⟩
            · have he : normalize name ≠ normalize x := by
                intro he
                rw [cacheGetMaterial_congr name x w he, hx] at hc
                cases hc
              rw [cacheGetMaterial_put_other x name localmat w2 he]
              exact hstep.1.1 x m hx
            · by_cases he : normalize name = normalize x
              · exact ⟨name, he, file, ho, hst⟩
              · rw [cacheGetMaterial_put_other x name localmat w2 he] at hne
                exact hstep.1.2 x hx hne

/-- A call of `materialGet` for a cached name returns the cached record at once. -/
theorem materialGet_hit {σ : Type} (E : Env σ) (m : Nat) (name : CString) (w : World σ)
    (mat : Material) (h : cacheGetMaterial name w = some mat) :
    materialGet E (m + 1) name w = Outcome.ok (some mat, w) := by
  simp only [materialGet, h]

/-- A call of `materialGet` that misses the cache and whose `materialLoad` returns 0
returns the placeholder record. -/
theorem materialGet_of_failed_load {σ : Type} (E : Env σ) (n : Nat) (name : CString)
    (w w1 : World σ) (file : IFile) (out : Material)
    (hmiss : cacheGetMaterial name w = none)
    (hopen : E.collectionChainOpen name = some file)
    (hload : materialLoad E (materialGet E n) file zeroMaterial w = Outcome.ok (0, out, w1)) :
    materialGet E (n + 1) name w = Outcome.ok (cacheGetMaterial placeholder w1, w1) := by
  simp only [materialGet, hmiss, hopen, hload]
  rfl

/-- The name an `include` of `materials/` followed by a name without `.vmt` hands to
`materialGet` is that name. -/
theorem includeName_materials (foo : CString)
    (hvmt : strstr ("materials/".toList ++ foo) ".vmt".toList = none) :
    includeName ("materials/".toList ++ foo) = some foo := by
  have h : strstr ("materials/".toList ++ foo) "materials/".toList = some 0 := by
    show strstr ('m' :: 'a' :: 't' :: 'e' :: 'r' :: 'i' :: 'a' :: 'l' :: 's' :: '/' :: foo)
      ['m', 'a', 't', 'e', 'r', 'i', 'a', 'l', 's', '/'] = some 0
    simp [strstr, List.isPrefixOf]
  unfold includeName
  rw [hvmt]
  simp only [h, if_true]
  rfl

theorem withPlaceholder_of_set {σ : Type} (E : Env σ) (output : Material) (w : World σ)
    (h : output.base_texture_0 ≠ none) : withPlaceholder E output w = output := by
  unfold withPlaceholder
  rw [if_neg h]

/-- A file larger than the buffer less one character is rejected before it is read. -/
theorem materialLoad_oversize {σ : Type} (E : Env σ)
    (get : CString → World σ → Outcome (Option Material × World σ))
    (file : IFile) (output : Material) (w : World σ) (h : bufferSize - 1 < file.size) :
    materialLoad E get file output w = Outcome.ok (0, output, w) := by
  unfold materialLoad
  rw [if_pos h]

/-- A file that is not read whole is rejected. -/
theorem materialLoad_short_read {σ : Type} (E : Env σ)
    (get : CString → World σ → Outcome (Option Material × World σ))
    (file : IFile) (output : Material) (w : World σ)
    (h : file.size ≠ (file.read 0 file.size).1) :
    materialLoad E get file output w = Outcome.ok (0, output, w) := by
  unfold materialLoad
  by_cases h1 : file.size > bufferSize - 1
  · rw [if_pos h1]
  · rw [if_neg h1]
    simp only
    rw [if_pos h]

/-! ## Claims about the key/value reader -/

/-- C1: skipping a nested block is transparent. For every key followed by a block with
balanced content (strings and nested blocks, to any depth), `getNextKeyValue` returns
the same result, leaves the same remaining tokens and the same value, and after
`KeyValue_Read` the same key, as on the stream without that key and its block. In
particular `materialLoad` on the text
`"shader" { "proxies" { "a" "1" { "b" "2" } } "$basetexture" "foo" }` returns 1 with
the first base texture set to what `textureGet` returns for `foo`. -/
theorem getNextKeyValue_block_transparent {σ : Type} (key : CString) (body : Body)
    (rest : List Lexeme) (s k v : CString) (E : Env σ)
    (get : CString → World σ → Outcome (Option Material × World σ))
    (file : IFile) (buf : List Char) (output : Material) (w : World σ)
    (hsize : file.size ≤ bufferSize - 1)
    (hread : file.read 0 file.size = (file.size, buf))
    (htok : E.tokenize buf = proxiesExample) :
    ((getNextKeyValue
        { tok := { cursor := Lexeme.str key :: Lexeme.curlyOpen ::
                     (body.lexemes ++ Lexeme.curlyClose :: rest), str := s },
          key := k, value := v }).1
        = (getNextKeyValue { tok := { cursor := rest, str := s }, key := k, value := v }).1
      ∧ (getNextKeyValue
          { tok := { cursor := Lexeme.str key :: Lexeme.curlyOpen ::
                       (body.lexemes ++ Lexeme.curlyClose :: rest), str := s },
            key := k, value := v }).2.tok.cursor
        = (getNextKeyValue
            { tok := { cursor := rest, str := s }, key := k, value := v }).2.tok.cursor
      ∧ (getNextKeyValue
          { tok := { cursor := Lexeme.str key :: Lexeme.curlyOpen ::
                       (body.lexemes ++ Lexeme.curlyClose :: rest), str := s },
            key := k, value := v }).2.value
        = (getNextKeyValue
            { tok := { cursor := rest, str := s }, key := k, value := v }).2.value
      ∧ ((getNextKeyValue
          { tok := { cursor := Lexeme.str key :: Lexeme.curlyOpen ::
                       (body.lexemes ++ Lexeme.curlyClose :: rest), str := s },
            key := k, value := v }).1 = KeyValueResult.KeyValue_Read →
          (getNextKeyValue
            { tok := { cursor := Lexeme.str key :: Lexeme.curlyOpen ::
                         (body.lexemes ++ Lexeme.curlyClose :: rest), str := s },
              key := k, value := v }).2.key
          = (getNextKeyValue
              { tok := { cursor := rest, str := s }, key := k, value := v }).2.key))
    ∧ materialLoad E get file output w
        = Outcome.ok (1,
            { output with base_texture_0 := some (E.textureGet "foo".toList w.textures).1 },
            { w with textures := (E.textureGet "foo".toList w.textures).2 }) := by
  constructor
  · rw [getNextKeyValue_block]
    exact getNextKeyValueLoop_passthrough _ rest (body.lastStr key) s key k v
  · rw [materialLoad_eq E get file output w buf _ _ hsize hread htok]
    rfl

/-- C1, at a concrete input: the section `"dx9" { "a" { "b" } }` in front of the pair
`"$detail" "d"`, and the file of `proxiesText`. -/
theorem getNextKeyValue_block_transparent_witness :
    ((getNextKeyValue
        { tok := { cursor := [Lexeme.str "dx9".toList, Lexeme.curlyOpen,
            Lexeme.str "a".toList, Lexeme.curlyOpen, Lexeme.str "b".toList,
            Lexeme.curlyClose, Lexeme.curlyClose,
            Lexeme.str "$detail".toList, Lexeme.str "d".toList], str := [] },
          key := [], value := [] })
      = (KeyValueResult.KeyValue_Read,
          { tok := { cursor := [], str := "d".toList }, key := "$detail".toList,
            value := "d".toList }))
    ∧ materialLoad (tableEnv [("m".toList, proxiesText, proxiesExample)])
        (fun _ _ => Outcome.outOfFuel) (textFile proxiesText) zeroMaterial startWorld
        = Outcome.ok (1, { zeroMaterial with base_texture_0 := some 1 },
            { startWorld with textures := [placeholder, "foo".toList] }) := by
  have h := getNextKeyValue_block_transparent "dx9".toList
    (Body.str "a".toList (Body.block (Body.str "b".toList Body.nil) Body.nil))
    [Lexeme.str "$detail".toList, Lexeme.str "d".toList] [] [] []
    (tableEnv [("m".toList, proxiesText, proxiesExample)])
    (fun _ _ => Outcome.outOfFuel) (textFile proxiesText) proxiesText zeroMaterial
    startWorld (by decide) (by rfl) (by rfl)
  exact ⟨by rfl, h.2.trans (by rfl)⟩

/-- C2: the capacity of the value buffer. A key followed by a value of length at most 127
is read, with the context holding exactly the characters of the value; for a value of
length 128 or more the result is `KeyValue_Error` and the value in the context is left
as it was: nothing is truncated. -/
theorem getNextKeyValue_value_capacity (key value : CString) (rest : List Lexeme)
    (s k v : CString) :
    getNextKeyValue
        { tok := { cursor := Lexeme.str key :: Lexeme.str value :: rest, str := s },
          key := k, value := v }
      = if value.length ≤ 127 then
          (KeyValueResult.KeyValue_Read,
            { tok := { cursor := rest, str := value }, key := key, value := value })
        else
          (KeyValueResult.KeyValue_Error,
            { tok := { cursor := rest, str := value }, key := key, value := v }) := by
  by_cases h : value.length ≤ 127
  · rw [if_pos h]
    exact getNextKeyValue_pair key value rest s k v h
  · rw [if_neg h]
    have h2 : value.length > valueCapacity - 1 := by
      simp only [valueCapacity]; omega
    simp only [getNextKeyValue, getNextKeyValueLoop, getNextToken, List.length_cons]
    rw [if_pos h2]

/-! ## Claims about `materialLoad` and `materialGet` -/

/-- The function `materialLoad` on a well-formed definition made of ignorable pairs. -/
theorem materialLoad_ignorable {σ : Type} (E : Env σ)
    (get : CString → World σ → Outcome (Option Material × World σ))
    (file : IFile) (buf : List Char) (shader : CString)
    (pairs : List (CString × CString)) (output : Material) (w : World σ)
    (hsize : file.size ≤ bufferSize - 1)
    (hread : file.read 0 file.size = (file.size, buf))
    (htok : E.tokenize buf = definitionLexemes shader (pairItems pairs))
    (hfit : ∀ p ∈ pairs, p.2.length ≤ 127)
    (hkeys : ∀ p ∈ pairs, normalize p.1 ∈ ignore_params ++ noop_params) :
    materialLoad E get file output w = Outcome.ok (1, withPlaceholder E output w, w) := by
  rw [materialLoad_definition E get file output w buf shader _ hsize hread htok
      (valuesFit_pairItems pairs hfit),
    setItems_ignorable E get pairs output w hkeys]
  rfl

/-- C4: a well-formed definition made of pairs whose values fit the buffer and whose
keys are, ignoring case, entries of `ignore_params` or no-op keys: `materialLoad`
returns 1, the state is as before, the first base texture of the zeroed record is what
`cacheGetTexture` gives for the placeholder name and every other field is still unset.
On any record the fields are left as they were, but for an unset first base
texture. -/
theorem materialLoad_ignorable_keys {σ : Type} (E : Env σ)
    (get : CString → World σ → Outcome (Option Material × World σ))
    (file : IFile) (buf : List Char) (shader : CString)
    (pairs : List (CString × CString)) (output : Material) (w : World σ)
    (hsize : file.size ≤ bufferSize - 1)
    (hread : file.read 0 file.size = (file.size, buf))
    (htok : E.tokenize buf = definitionLexemes shader (pairItems pairs))
    (hfit : ∀ p ∈ pairs, p.2.length ≤ 127)
    (hkeys : ∀ p ∈ pairs, normalize p.1 ∈ ignore_params ++ noop_params) :
    materialLoad E get file zeroMaterial w
        = Outcome.ok (1,
            { shader := [], base_texture_0 := E.cacheGetTexture placeholder w.textures,
              base_texture_1 := none, detail := none, bump := none, envmap := none }, w)
      ∧ materialLoad E get file output w = Outcome.ok (1, withPlaceholder E output w, w) :=
  ⟨materialLoad_ignorable E get file buf shader pairs zeroMaterial w hsize hread htok hfit
      hkeys,
    materialLoad_ignorable E get file buf shader pairs output w hsize hread htok hfit hkeys⟩

/-- C4, at a concrete input: the definition `"s" { "$surfaceprop" "metal" "$Translucent" "1" }`. -/
theorem materialLoad_ignorable_keys_witness :
    materialLoad demoEnv (materialGet demoEnv 0) (textFile plainText) zeroMaterial startWorld
        = Outcome.ok (1,
            { shader := [], base_texture_0 := some 0, base_texture_1 := none,
              detail := none, bump := none, envmap := none }, startWorld)
      ∧ materialLoad demoEnv (materialGet demoEnv 0) (textFile plainText)
          { zeroMaterial with bump := some 5 } startWorld
        = Outcome.ok (1, { zeroMaterial with base_texture_0 := some 0, bump := some 5 },
            startWorld) :=
  materialLoad_ignorable_keys demoEnv (materialGet demoEnv 0) (textFile plainText) plainText
    "s".toList [("$surfaceprop".toList, "metal".toList), ("$Translucent".toList, "1".toList)]
    { zeroMaterial with bump := some 5 } startWorld (by decide) (by rfl) (by rfl)
    (by decide) (by decide)

/-- C3, as stated, fails: the definition `bar` specifies `$basetexture` with the value
`a`, for which `textureGet` returns the reference 1, and then includes `foo`; the record
`materialGet` returns has the first base texture of `foo`, the reference 2. -/
theorem materialGet_basetexture_counterexample :
    demoEnv.tokenize barText
        = definitionLexemes "s".toList
            [Item.pair "$basetexture".toList "a".toList,
             Item.pair "include".toList "materials/foo".toList]
      ∧ (demoEnv.textureGet "a".toList startWorld.textures).1 = 1
      ∧ materialGet demoEnv 2 "bar".toList startWorld
          = Outcome.ok (some { zeroMaterial with base_texture_0 := some 2, bump := some 3 },
              cachePutMaterial "bar".toList
                { zeroMaterial with base_texture_0 := some 2, bump := some 3 }
                (cachePutMaterial "foo".toList
                  { zeroMaterial with base_texture_0 := some 2, bump := some 3 }
                  { startWorld with
                    textures := [placeholder, "a".toList, "b".toList, "w".toList] })) :=
  ⟨by rfl, by rfl, by rfl⟩

/-- C3, amended: a well-formed definition, not yet cached, whose values fit the buffer and
which specifies `$basetexture` (in any letter case) with the value `v`, with no later key
that selects `$basetexture` or `include`. When the entries before and after that pair
are dispatched to the end, `materialGet` returns the record of the definition, stored
in the cache, and its first base texture is the reference `textureGet` returned for
`v`. -/
theorem materialGet_basetexture {σ : Type} (E : Env σ) (n : Nat) (name : CString)
    (w : World σ) (file : IFile) (buf : List Char) (shader : CString)
    (before after : List Item) (key v : CString) (o1 o2 : Material) (w1 w2 : World σ)
    (hmiss : cacheGetMaterial name w = none)
    (hopen : E.collectionChainOpen name = some file)
    (hsize : file.size ≤ bufferSize - 1)
    (hread : file.read 0 file.size = (file.size, buf))
    (htok : E.tokenize buf = definitionLexemes shader (before ++ Item.pair key v :: after))
    (hfit : valuesFit (before ++ Item.pair key v :: after) = true)
    (hkey : normalize key = "$basetexture".toList)
    (hlater : ∀ k x, Item.pair k x ∈ after →
      keyParam k ≠ Param.basetexture ∧ keyParam k ≠ Param.includeMaterial)
    (hbefore : setItems E (materialGet E n) before zeroMaterial w = Outcome.ok (o1, w1))
    (hafter : setItems E (materialGet E n) after
        { o1 with base_texture_0 := some (E.textureGet v w1.textures).1 }
        { w1 with textures := (E.textureGet v w1.textures).2 } = Outcome.ok (o2, w2)) :
    materialGet E (n + 1) name w = Outcome.ok (some o2, cachePutMaterial name o2 w2)
      ∧ o2.base_texture_0 = some (E.textureGet v w1.textures).1 := by
  have hkp : keyParam key = Param.basetexture := by
    rw [← keyParam_normalize, hkey]; rfl
  have hbase : o2.base_texture_0 = some (E.textureGet v w1.textures).1 :=
    setItems_base_texture_0 E _ after _ o2 _ w2 hlater hafter
  refine ⟨?_, hbase⟩
  apply materialGet_of_load E n name w w2 file o2 hmiss hopen
  rw [materialLoad_definition E _ file zeroMaterial w buf shader _ hsize hread htok hfit,
    setItems_append E _ before _ zeroMaterial w o1 w1 hbefore]
  simp only [setItems, hkp, setParam, hafter, finishLoad, withPlaceholder, hbase]
  rfl

/-- C3 amended, at a concrete input: the definition
`"s" { "$detail" "d" "$BaseTexture" "a" "$surfaceprop" "metal" }`. -/
theorem materialGet_basetexture_witness :
    materialGet demoEnv 1 "tex".toList startWorld
        = Outcome.ok (some { zeroMaterial with base_texture_0 := some 2, detail := some 1 },
            cachePutMaterial "tex".toList
              { zeroMaterial with base_texture_0 := some 2, detail := some 1 }
              { startWorld with textures := [placeholder, "d".toList, "a".toList] })
      ∧ ({ zeroMaterial with base_texture_0 := some 2, detail := some 1 } : Material).base_texture_0
        = some 2 :=
  materialGet_basetexture demoEnv 0 "tex".toList startWorld (textFile texText) texText
    "s".toList [Item.pair "$detail".toList "d".toList]
    [Item.pair "$surfaceprop".toList "metal".toList] "$BaseTexture".toList "a".toList
    { zeroMaterial with detail := some 1 }
    { zeroMaterial with base_texture_0 := some 2, detail := some 1 }
    { startWorld with textures := [placeholder, "d".toList] }
    { startWorld with textures := [placeholder, "d".toList, "a".toList] }
    (by rfl) (by rfl) (by decide) (by rfl) (by rfl) (by rfl) (by rfl)
    (by
      intro k x hm
      simp only [List.mem_singleton, Item.pair.injEq] at hm
      rw [hm.1]
      decide)
    (by rfl) (by rfl)

/-- C5: memoization. After a call of `materialGet` that missed the cache and loaded
the definition (`materialLoad` returned 1), a second call for the same name returns the same
record and leaves the state as it is, whatever the collection, the tokenizer and the
texture resolver are then: it is answered from the cache alone. The same holds after
any further call of `materialGet` that returns, for any name: the record stays cached, so
the name is loaded at most once. -/
theorem materialGet_memoized {σ : Type} (E : Env σ) (n : Nat) (name : CString)
    (w w1 : World σ) (file : IFile) (mat : Material)
    (hmiss : cacheGetMaterial name w = none)
    (hopen : E.collectionChainOpen name = some file)
    (hload : materialLoad E (materialGet E n) file zeroMaterial w = Outcome.ok (1, mat, w1)) :
    materialGet E (n + 1) name w = Outcome.ok (some mat, cachePutMaterial name mat w1)
      ∧ (∀ (E2 : Env σ) (m : Nat),
          materialGet E2 (m + 1) name (cachePutMaterial name mat w1)
            = Outcome.ok (some mat, cachePutMaterial name mat w1))
      ∧ (∀ (E2 : Env σ) (m : Nat) (other : CString) (r : Option Material) (w2 : World σ),
          materialGet E2 m other (cachePutMaterial name mat w1) = Outcome.ok (r, w2) →
          ∀ (E3 : Env σ) (k : Nat),
            materialGet E3 (k + 1) name w2 = Outcome.ok (some mat, w2)) := by
  refine ⟨materialGet_of_load E n name w w1 file mat hmiss hopen hload, ?_, ?_⟩
  · intro E2 m
    exact materialGet_hit E2 m name _ mat (cacheGetMaterial_put_same name mat w1)
  · intro E2 m other r w2 h E3 k
    exact materialGet_hit E3 k name w2 mat
      ((materialGet_cacheStep E2 m other _ r w2 h).1 name mat
        (cacheGetMaterial_put_same name mat w1))

/-- C5, at a concrete input: the definition `foo` of the examples. -/
theorem materialGet_memoized_witness :
    materialGet demoEnv 1 "foo".toList startWorld
      = Outcome.ok (some { zeroMaterial with base_texture_0 := some 1, bump := some 2 },
          cachePutMaterial "foo".toList
            { zeroMaterial with base_texture_0 := some 1, bump := some 2 }
            { startWorld with textures := [placeholder, "b".toList, "w".toList] }) :=
  (materialGet_memoized demoEnv 0 "foo".toList startWorld
    { startWorld with textures := [placeholder, "b".toList, "w".toList] }
    (textFile fooText) { zeroMaterial with base_texture_0 := some 1, bump := some 2 }
    (by rfl) (by rfl) (by rfl)).1

/-- C6: failure is not memoized. For a name absent from the cache, in a collection that
names files as the cache names records (ignoring case): when the collection has no file
for the name, or the file is larger than the buffer allows, or it is not read whole, or
`materialLoad` returns 0 for any other reason (bad header, parse error),
`materialGet` returns what the cache holds for the placeholder name and the cache has
still no record under the name. A later call therefore resolves the name again: if
the definition can then be loaded, it returns the loaded record. -/
theorem materialGet_failure_not_cached {σ : Type} (E : Env σ) (n : Nat) (name : CString)
    (w w1 : World σ)
    (hmiss : cacheGetMaterial name w = none)
    (hconv : ∀ y, normalize y = normalize name →
      E.collectionChainOpen y = E.collectionChainOpen name)
    (hfail : (E.collectionChainOpen name = none ∧ w1 = w)
      ∨ (∃ file, E.collectionChainOpen name = some file ∧ bufferSize - 1 < file.size
          ∧ w1 = w)
      ∨ (∃ file, E.collectionChainOpen name = some file
          ∧ file.size ≠ (file.read 0 file.size).1 ∧ w1 = w)
      ∨ (∃ file out, E.collectionChainOpen name = some file ∧
          materialLoad E (materialGet E n) file zeroMaterial w = Outcome.ok (0, out, w1))) :
    materialGet E (n + 1) name w = Outcome.ok (cacheGetMaterial placeholder w1, w1)
      ∧ cacheGetMaterial name w1 = none
      ∧ (∀ (E2 : Env σ) (m : Nat) (file2 : IFile) (mat2 : Material) (w2 : World σ),
          E2.collectionChainOpen name = some file2 →
          materialLoad E2 (materialGet E2 m) file2 zeroMaterial w1 = Outcome.ok (1, mat2, w2) →
          materialGet E2 (m + 1) name w1
            = Outcome.ok (some mat2, cachePutMaterial name mat2 w2)) := by
  have hfail2 : (E.collectionChainOpen name = none ∧ w1 = w) ∨
      ∃ file out, E.collectionChainOpen name = some file ∧
        materialLoad E (materialGet E n) file zeroMaterial w = Outcome.ok (0, out, w1) := by
    rcases hfail with h | ⟨file, hopen, hbig, hw⟩ | ⟨file, hopen, hshort, hw⟩ | h
    · exact Or.inl h
    · rw [hw]
      exact Or.inr ⟨file, zeroMaterial, hopen, materialLoad_oversize E _ file _ w hbig⟩
    · rw [hw]
      exact Or.inr ⟨file, zeroMaterial, hopen, materialLoad_short_read E _ file _ w hshort⟩
    · exact Or.inr h
  have hnone : cacheGetMaterial name w1 = none := by
    rcases hfail2 with ⟨_, hw⟩ | ⟨file, out, hopen, hload⟩
    · rw [hw]; exact hmiss
    · have hstep := materialLoad_cacheStep E (materialGet E n) (materialGet_cacheStep E n)
        file _ _ _ _ _ hload
      cases hc : cacheGetMaterial name w1 with
      | none => rfl
      | some m =>
        exfalso
        obtain ⟨y, hy, file2, hopen2, hst⟩ :=
          hstep.1.2 name hmiss (by rw [hc]; exact Option.some_ne_none m)
        rw [hconv y hy, hopen, Option.some.injEq] at hopen2
        rw [← hopen2] at hst
        rw [hst] at hstep
        exact absurd hstep.2 (by decide)
  refine ⟨?_, hnone, ?_⟩
  · rcases hfail2 with ⟨hopen, hw⟩ | ⟨file, out, hopen, hload⟩
    · rw [hw]
      simp only [materialGet, hmiss, hopen]
    · exact materialGet_of_failed_load E n name w w1 file out hmiss hopen hload
  · intro E2 m file2 mat2 w2 hopen2 hload2
    exact materialGet_of_load E2 m name w1 w2 file2 mat2 hnone hopen2 hload2

/-- C6, at a concrete input: the definition `broken` of the examples, whose last key has
no value; the texture of the pair before it has been loaded, the cache is as it was and
the result is the placeholder record. -/
theorem materialGet_failure_not_cached_witness :
    materialGet demoEnv 1 "broken".toList startWorld
      = Outcome.ok (some placeholderMaterial,
          { startWorld with textures := [placeholder, "a".toList] }) :=
  (materialGet_failure_not_cached demoEnv 0 "broken".toList startWorld
    { startWorld with textures := [placeholder, "a".toList] } (by rfl)
    (by
      intro y hy
      simp only [demoEnv, tableEnv, hy])
    (Or.inr (Or.inr (Or.inr
      ⟨textFile brokenText, { zeroMaterial with base_texture_0 := some 1 },
        by rfl, by rfl⟩)))).1

theorem paddedText_size (n : Nat) : (textFile (paddedText n)).size = n + 7 := by
  simp [textFile, paddedText]

theorem paddedText_read (n : Nat) :
    (textFile (paddedText n)).read 0 (textFile (paddedText n)).size
      = ((textFile (paddedText n)).size, paddedText n) := by
  simp [textFile]

/-- C7, as stated, fails: a file of exactly 8192 characters that holds a
well-formed definition is rejected by the size check, while the same definition with one blank less,
8191 characters, is loaded. -/
theorem materialLoad_size_cap_counterexample :
    (textFile (paddedText 8185)).size = 8192
      ∧ paddedEnv.tokenize (paddedText 8185) = definitionLexemes "s".toList []
      ∧ materialLoad paddedEnv (materialGet paddedEnv 0) (textFile (paddedText 8185))
          zeroMaterial startWorld = Outcome.ok (0, zeroMaterial, startWorld)
      ∧ (textFile (paddedText 8184)).size = 8191
      ∧ materialLoad paddedEnv (materialGet paddedEnv 0) (textFile (paddedText 8184))
          zeroMaterial startWorld = Outcome.ok (1, placeholderMaterial, startWorld) := by
  refine ⟨paddedText_size 8185, by rfl, ?_, paddedText_size 8184, ?_⟩
  · apply materialLoad_oversize
    rw [paddedText_size]
    decide
  · rw [materialLoad_definition paddedEnv _ _ zeroMaterial startWorld (paddedText 8184)
      "s".toList [] (by rw [paddedText_size]; decide) (paddedText_read 8184) (by rfl)
      (by rfl)]
    rfl

/-- C7, amended: the cap is 8191 characters, the 8192 characters of the buffer less the
terminating NUL. Every file of more than 8191 characters is rejected, whatever it
holds, with the record and the state untouched; and a file that is read whole and holds
a well-formed definition of ignorable pairs is rejected if and only if its size exceeds
8191: up to 8191 characters it passes the check, is read and parsed, and `materialLoad`
returns 1. -/
theorem materialLoad_size_cap {σ : Type} (E : Env σ)
    (get : CString → World σ → Outcome (Option Material × World σ))
    (file : IFile) (buf : List Char) (shader : CString)
    (pairs : List (CString × CString)) (output : Material) (w : World σ)
    (hread : file.read 0 file.size = (file.size, buf))
    (htok : E.tokenize buf = definitionLexemes shader (pairItems pairs))
    (hfit : ∀ p ∈ pairs, p.2.length ≤ 127)
    (hkeys : ∀ p ∈ pairs, normalize p.1 ∈ ignore_params ++ noop_params) :
    (∀ (g : IFile) (o : Material) (v : World σ), 8191 < g.size →
        materialLoad E get g o v = Outcome.ok (0, o, v))
      ∧ materialLoad E get file output w
        = if file.size ≤ 8191 then Outcome.ok (1, withPlaceholder E output w, w)
          else Outcome.ok (0, output, w) := by
  constructor
  · intro g o v hg
    exact materialLoad_oversize E get g o v hg
  · by_cases h : file.size ≤ 8191
    · rw [if_pos h]
      exact materialLoad_ignorable E get file buf shader pairs output w h hread htok
        hfit hkeys
    · rw [if_neg h]
      exact materialLoad_oversize E get file output w (by simp only [bufferSize]; omega)

/-- C7 amended, at a concrete input: the padded files of 8191 and of 8192 characters. -/
theorem materialLoad_size_cap_witness :
    materialLoad paddedEnv (materialGet paddedEnv 0) (textFile (paddedText 8184))
        zeroMaterial startWorld
      = (if (textFile (paddedText 8184)).size ≤ 8191 then
          Outcome.ok (1, withPlaceholder paddedEnv zeroMaterial startWorld, startWorld)
        else Outcome.ok (0, zeroMaterial, startWorld)) :=
  (materialLoad_size_cap paddedEnv (materialGet paddedEnv 0) (textFile (paddedText 8184))
    (paddedText 8184) "s".toList [] zeroMaterial startWorld (paddedText_read 8184) (by rfl)
    (by decide) (by decide)).2

/-- C8: whole-record substitution on `include`. For a well-formed definition `bar`, not
yet cached, whose values fit the buffer and whose last entry is `include` (in any letter
case) with the value `materials/foo`, `foo` without `.vmt`: when the entries before it
are dispatched to the end and `materialGet` returns for `foo` a record with a first
base texture, as every record handed to a caller has one, `materialGet` returns for
`bar` that very record, field for field, whatever the entries before the `include` had
set. If `foo` is cached then and is another name than `bar`, a later call for `foo`
returns the same record again. -/
theorem materialGet_include_last {σ : Type} (E : Env σ) (n : Nat) (bar foo : CString)
    (w : World σ) (file : IFile) (buf : List Char) (shader : CString)
    (before : List Item) (ikey : CString) (o1 rfoo : Material) (w1 w2 : World σ)
    (hmiss : cacheGetMaterial bar w = none)
    (hopen : E.collectionChainOpen bar = some file)
    (hsize : file.size ≤ bufferSize - 1)
    (hread : file.read 0 file.size = (file.size, buf))
    (htok : E.tokenize buf
      = definitionLexemes shader (before ++ [Item.pair ikey ("materials/".toList ++ foo)]))
    (hfit : valuesFit (before ++ [Item.pair ikey ("materials/".toList ++ foo)]) = true)
    (hkey : normalize ikey = "include".toList)
    (hvmt : strstr ("materials/".toList ++ foo) ".vmt".toList = none)
    (hbefore : setItems E (materialGet E n) before zeroMaterial w = Outcome.ok (o1, w1))
    (hfoo : materialGet E n foo w1 = Outcome.ok (some rfoo, w2))
    (hbase : rfoo.base_texture_0 ≠ none) :
    materialGet E (n + 1) bar w = Outcome.ok (some rfoo, cachePutMaterial bar rfoo w2)
      ∧ (normalize bar ≠ normalize foo → cacheGetMaterial foo w2 = some rfoo →
          ∀ (E2 : Env σ) (m : Nat),
            materialGet E2 (m + 1) foo (cachePutMaterial bar rfoo w2)
              = Outcome.ok (some rfoo, cachePutMaterial bar rfoo w2)) := by
  have hkp : keyParam ikey = Param.includeMaterial := by
    rw [← keyParam_normalize, hkey]; rfl
  constructor
  · apply materialGet_of_load E n bar w w2 file rfoo hmiss hopen
    rw [materialLoad_definition E _ file zeroMaterial w buf shader _ hsize hread htok hfit,
      setItems_append E _ before _ zeroMaterial w o1 w1 hbefore]
    simp only [setItems, hkp, setParam, includeName_materials foo hvmt, hfoo, finishLoad,
      withPlaceholder_of_set E rfoo w2 hbase]
  · intro hne hcached E2 m
    apply materialGet_hit
    rw [cacheGetMaterial_put_other foo bar rfoo w2 hne]
    exact hcached

/-- C8, at a concrete input: the definition `bar` of the examples,
`"s" { "$basetexture" "a" "include" "materials/foo" }`. -/
theorem materialGet_include_last_witness :
    materialGet demoEnv 2 "bar".toList startWorld
      = Outcome.ok (some { zeroMaterial with base_texture_0 := some 2, bump := some 3 },
          cachePutMaterial "bar".toList
            { zeroMaterial with base_texture_0 := some 2, bump := some 3 }
            (cachePutMaterial "foo".toList
              { zeroMaterial with base_texture_0 := some 2, bump := some 3 }
              { startWorld with
                textures := [placeholder, "a".toList, "b".toList, "w".toList] })) :=
  (materialGet_include_last demoEnv 1 "bar".toList "foo".toList startWorld
    (textFile barText) barText "s".toList [Item.pair "$basetexture".toList "a".toList]
    "include".toList { zeroMaterial with base_texture_0 := some 1 }
    { zeroMaterial with base_texture_0 := some 2, bump := some 3 }
    { startWorld with textures := [placeholder, "a".toList] }
    (cachePutMaterial "foo".toList
      { zeroMaterial with base_texture_0 := some 2, bump := some 3 }
      { startWorld with textures := [placeholder, "a".toList, "b".toList, "w".toList] })
    (by rfl) (by rfl) (by decide) (by rfl) (by rfl) (by rfl) (by rfl) (by rfl) (by rfl)
    (by rfl) (by decide)).1

/-- C9, as stated, fails: the definition `baz` includes `foo`, whose bump map is the
reference 2, and then sets `$bumpmap` to `v`, for which `textureGet` returns the
reference 3; the record `materialGet` returns carries the later value 3, not the
field of the included record. -/
theorem materialGet_key_after_include_counterexample :
    demoEnv.tokenize bazText
        = definitionLexemes "s".toList
            [Item.pair "include".toList "materials/foo".toList,
             Item.pair "$bumpmap".toList "v".toList]
      ∧ materialGet demoEnv 1 "foo".toList startWorld
        = Outcome.ok (some { zeroMaterial with base_texture_0 := some 1, bump := some 2 },
            cachePutMaterial "foo".toList
              { zeroMaterial with base_texture_0 := some 1, bump := some 2 }
              { startWorld with textures := [placeholder, "b".toList, "w".toList] })
      ∧ (demoEnv.textureGet "v".toList [placeholder, "b".toList, "w".toList]).1 = 3
      ∧ materialGet demoEnv 2 "baz".toList startWorld
        = Outcome.ok (some { zeroMaterial with base_texture_0 := some 1, bump := some 3 },
            cachePutMaterial "baz".toList
              { zeroMaterial with base_texture_0 := some 1, bump := some 3 }
              (cachePutMaterial "foo".toList
                { zeroMaterial with base_texture_0 := some 1, bump := some 2 }
                { startWorld with
                  textures := [placeholder, "b".toList, "w".toList, "v".toList] })) :=
  ⟨by rfl, by rfl, by rfl, by rfl⟩

/-- C9, amended: a key set after an `include` is preserved. For a
well-formed definition, not yet cached, whose values fit the buffer and whose last two entries are
`include` with the value `materials/foo` and `$bumpmap` with the value `v` (keys in
any letter case): when the entries before them are dispatched to the end and
`materialGet` returns a record for `foo`, the record returned for the definition is
the record of `foo` with the bump map replaced by the reference `textureGet` returns
for `v` (and with the placeholder for an unset first base texture); the fields set
before the `include` are the ones that are lost. -/
theorem materialGet_key_after_include {σ : Type} (E : Env σ) (n : Nat)
    (bar foo : CString) (w : World σ) (file : IFile) (buf : List Char) (shader : CString)
    (before : List Item) (ikey key v : CString) (o1 rfoo : Material) (w1 w2 : World σ)
    (hmiss : cacheGetMaterial bar w = none)
    (hopen : E.collectionChainOpen bar = some file)
    (hsize : file.size ≤ bufferSize - 1)
    (hread : file.read 0 file.size = (file.size, buf))
    (htok : E.tokenize buf = definitionLexemes shader
      (before ++ [Item.pair ikey ("materials/".toList ++ foo), Item.pair key v]))
    (hfit : valuesFit
      (before ++ [Item.pair ikey ("materials/".toList ++ foo), Item.pair key v]) = true)
    (hikey : normalize ikey = "include".toList)
    (hkey : normalize key = "$bumpmap".toList)
    (hvmt : strstr ("materials/".toList ++ foo) ".vmt".toList = none)
    (hbefore : setItems E (materialGet E n) before zeroMaterial w = Outcome.ok (o1, w1))
    (hfoo : materialGet E n foo w1 = Outcome.ok (some rfoo, w2)) :
    materialGet E (n + 1) bar w
        = Outcome.ok
            (some (withPlaceholder E { rfoo with bump := some (E.textureGet v w2.textures).1 }
              { w2 with textures := (E.textureGet v w2.textures).2 }),
            cachePutMaterial bar
              (withPlaceholder E { rfoo with bump := some (E.textureGet v w2.textures).1 }
                { w2 with textures := (E.textureGet v w2.textures).2 })
              { w2 with textures := (E.textureGet v w2.textures).2 })
      ∧ (withPlaceholder E { rfoo with bump := some (E.textureGet v w2.textures).1 }
          { w2 with textures := (E.textureGet v w2.textures).2 }).bump
        = some (E.textureGet v w2.textures).1 := by
  have hkp : keyParam ikey = Param.includeMaterial := by
    rw [← keyParam_normalize, hikey]; rfl
  have hkp2 : keyParam key = Param.bumpmap := by
    rw [← keyParam_normalize, hkey]; rfl
  constructor
  · apply materialGet_of_load E n bar w _ file _ hmiss hopen
    rw [materialLoad_definition E _ file zeroMaterial w buf shader _ hsize hread htok hfit,
      setItems_append E _ before _ zeroMaterial w o1 w1 hbefore]
    simp only [setItems, hkp, hkp2, setParam, includeName_materials foo hvmt, hfoo,
      finishLoad]
  · unfold withPlaceholder
    split <;> rfl

/-- C9 amended, at a concrete input: the definition `baz` of the examples,
`"s" { "include" "materials/foo" "$bumpmap" "v" }`. -/
theorem materialGet_key_after_include_witness :
    (withPlaceholder demoEnv
        { ({ zeroMaterial with base_texture_0 := some 1, bump := some 2 } : Material) with
          bump := some 3 }
        { startWorld with
          textures := [placeholder, "b".toList, "w".toList, "v".toList] }).bump = some 3 :=
  (materialGet_key_after_include demoEnv 1 "baz".toList "foo".toList startWorld
    (textFile bazText) bazText "s".toList [] "include".toList "$bumpmap".toList "v".toList
    zeroMaterial { zeroMaterial with base_texture_0 := some 1, bump := some 2 } startWorld
    (cachePutMaterial "foo".toList
      { zeroMaterial with base_texture_0 := some 1, bump := some 2 }
      { startWorld with textures := [placeholder, "b".toList, "w".toList] })
    (by rfl) (by rfl) (by decide) (by rfl) (by rfl) (by rfl) (by rfl) (by rfl) (by rfl)
    (by rfl) (by rfl)).2

/-- C10, the code at the failing inputs: the comparison `strncasecmp(entry, key,
key_length)` only tells that the key is a beginning of the entry, so `$base` takes the
branch of `$basetexture`, `inc` the branch of `include` and the empty key the branch
of the first entry of `ignore_params`; the definition `"s" { "$base" "foo" }` gets the
texture `foo` as its first base texture, and `"s" { "inc" "materials/foo" }` would be
replaced by the record of `foo`. -/
theorem keyParam_beginning_of_entry :
    keyParam "$base".toList = Param.basetexture
      ∧ keyParam "inc".toList = Param.includeMaterial
      ∧ keyParam [] = Param.ignored
      ∧ keyParam "$basetexturex".toList = Param.unknown
      ∧ demoEnv.tokenize shortText
        = definitionLexemes "s".toList [Item.pair "$base".toList "foo".toList]
      ∧ (demoEnv.textureGet "foo".toList startWorld.textures).1 = 1
      ∧ materialGet demoEnv 1 "short".toList startWorld
        = Outcome.ok (some { zeroMaterial with base_texture_0 := some 1 },
            cachePutMaterial "short".toList { zeroMaterial with base_texture_0 := some 1 }
              { startWorld with textures := [placeholder, "foo".toList] }) :=
  ⟨by rfl, by rfl, by rfl, by rfl, by rfl, by rfl, by rfl⟩

/-! ## Claims about the results of the key/value reader -/

/-- In skip mode the end of the input is an error, at any depth. -/
theorem skipSection_nil (d : Int) (s : CString) :
    skipSection d [] s = (false, { cursor := [], str := s }) := rfl

/-- When the depth counter stays above zero through all the tokens left, the skip loop
meets the end of the input. -/
theorem skipSection_never_closed (l : List Lexeme) :
    ∀ (d : Int) (s : CString), (∀ i, 0 < depthAfter d (l.take i)) →
      (skipSection d l s).1 = false := by
  induction l with
  | nil => intro d s _; rfl
  | cons x rest ih =>
    intro d s h
    have hstep : ∀ i, 0 < depthAfter d (x :: rest.take i) := fun i => h (i + 1)
    cases x with
    | str t =>
      rw [skipSection_str]
      exact ih d t hstep
    | curlyOpen =>
      rw [skipSection_open]
      exact ih (d + 1) s hstep
    | curlyClose =>
      rw [skipSection_close]
      have h0 := hstep 0
      simp only [List.take_zero, depthAfter] at h0
      have hne : ¬ (d - 1 = 0) := by omega
      rw [if_neg hne]
      exact ih (d - 1) s hstep

/-- A key followed by a block that is never closed is an error. -/
theorem getNextKeyValue_never_closed (key : CString) (l : List Lexeme) (s k v : CString)
    (h : ∀ i, 0 < depthAfter 1 (l.take i)) :
    (getNextKeyValue
      { tok := { cursor := Lexeme.str key :: Lexeme.curlyOpen :: l, str := s },
        key := k, value := v }).1 = KeyValueResult.KeyValue_Error := by
  unfold getNextKeyValue
  rw [List.length_cons, getNextKeyValueLoop_open]
  have h2 := skipSection_never_closed l 1 key h
  cases hsk : skipSection 1 l key with
  | mk ok tok =>
    rw [hsk] at h2
    simp only at h2
    rw [h2]

/-- C15: the results of `getNextKeyValue` outside skip mode. When the first token is
the end of the input or a closing brace the result is `KeyValue_End`; when it is an opening
brace the result is `KeyValue_Error`; and a key followed by the end of the input or by a
closing brace (a key without a value) gives `KeyValue_Error`. -/
theorem getNextKeyValue_classification (rest : List Lexeme) (key s k v : CString) :
    getNextKeyValue { tok := { cursor := [], str := s }, key := k, value := v }
        = (KeyValueResult.KeyValue_End,
            { tok := { cursor := [], str := s }, key := k, value := v })
      ∧ getNextKeyValue
          { tok := { cursor := Lexeme.curlyClose :: rest, str := s }, key := k, value := v }
        = (KeyValueResult.KeyValue_End,
            { tok := { cursor := rest, str := s }, key := k, value := v })
      ∧ getNextKeyValue
          { tok := { cursor := Lexeme.curlyOpen :: rest, str := s }, key := k, value := v }
        = (KeyValueResult.KeyValue_Error,
            { tok := { cursor := rest, str := s }, key := k, value := v })
      ∧ getNextKeyValue
          { tok := { cursor := [Lexeme.str key], str := s }, key := k, value := v }
        = (KeyValueResult.KeyValue_Error,
            { tok := { cursor := [], str := key }, key := key, value := v })
      ∧ getNextKeyValue
          { tok := { cursor := Lexeme.str key :: Lexeme.curlyClose :: rest, str := s },
            key := k, value := v }
        = (KeyValueResult.KeyValue_Error,
            { tok := { cursor := rest, str := key }, key := key, value := v }) :=
  ⟨rfl, rfl, rfl, rfl, rfl⟩

/-- The skip loop reads one token for each one it consumes, and one more when it meets
the end of the input. -/
theorem skipSectionReads_le (l : List Lexeme) :
    ∀ (d : Int) (s : CString),
      skipSectionReads d l + (skipSection d l s).2.cursor.length
        ≤ l.length + (if (skipSection d l s).1 = true then 0 else 1) := by
  induction l with
  | nil => intro d s; simp [skipSectionReads, skipSection]
  | cons x rest ih =>
    intro d s
    cases x with
    | str t =>
      simp only [skipSectionReads, skipSection, List.length_cons]
      have := ih d t
      omega
    | curlyOpen =>
      simp only [skipSectionReads, skipSection, List.length_cons]
      have := ih (d + 1) s
      omega
    | curlyClose =>
      by_cases h : d - 1 = 0
      · simp only [skipSectionReads, skipSection, List.length_cons, h, if_true]
        omega
      · simp only [skipSectionReads, skipSection, List.length_cons, h, if_false]
        have := ih (d - 1) s
        omega

/-- With a bound above the number of tokens left the counted loop returns, with the
result of `getNextKeyValueLoop`, and it has read at most one token more than it has
consumed. -/
theorem getNextKeyValueFuel_spec :
    ∀ (n : Nat) (ctx : MaterialContext), ctx.tok.cursor.length < n →
      ∃ reads, getNextKeyValueFuel n ctx
          = some ((getNextKeyValueLoop n ctx).1, (getNextKeyValueLoop n ctx).2, reads)
        ∧ reads + (getNextKeyValueLoop n ctx).2.tok.cursor.length
            ≤ ctx.tok.cursor.length + 1 := by
  intro n
  induction n with
  | zero => intro ctx h; omega
  | succ n ih =>
    intro ctx hn
    obtain ⟨⟨cursor, s⟩, k, v⟩ := ctx
    cases cursor with
    | nil => exact ⟨1, rfl, by simp [getNextKeyValueLoop, getNextToken]⟩
    | cons x rest =>
      cases x with
      | curlyOpen =>
        exact ⟨1, rfl, by simp [getNextKeyValueLoop, getNextToken]; omega⟩
      | curlyClose =>
        exact ⟨1, rfl, by simp [getNextKeyValueLoop, getNextToken]; omega⟩
      | str key =>
        cases rest with
        | nil => exact ⟨2, rfl, by simp [getNextKeyValueLoop, getNextToken]⟩
        | cons y rest2 =>
          cases y with
          | curlyClose =>
            exact ⟨2, rfl, by simp [getNextKeyValueLoop, getNextToken]; omega⟩
          | str value =>
            refine ⟨2, ?_, ?_⟩
            · simp only [getNextKeyValueFuel, getNextKeyValueLoop, getNextToken]
              split <;> rfl
            · simp only [getNextKeyValueLoop, getNextToken]
              split <;> simp <;> omega
          | curlyOpen =>
            rw [getNextKeyValueLoop_open]
            have hfuel : getNextKeyValueFuel (n + 1)
                { tok := { cursor := Lexeme.str key :: Lexeme.curlyOpen :: rest2, str := s },
                  key := k, value := v }
                = match skipSection 1 rest2 key with
                  | (true, tok1) =>
                    match getNextKeyValueFuel n { tok := tok1, key := key, value := v } with
                    | some (res, ctx1, reads) =>
                      some (res, ctx1, 2 + skipSectionReads 1 rest2 + reads)
                    | none => none
                  | (false, tok1) =>
                    some (KeyValueResult.KeyValue_Error,
                      { tok := tok1, key := key, value := v },
                      2 + skipSectionReads 1 rest2) := rfl
            rw [hfuel]
            have hsr := skipSectionReads_le rest2 1 key
            have hlen := skipSection_length rest2 1 key
            cases hsk : skipSection 1 rest2 key with
            | mk ok tok =>
              rw [hsk] at hsr hlen
              simp only [List.length_cons] at hn hsr hlen ⊢
              cases ok with
              | false =>
                refine ⟨2 + skipSectionReads 1 rest2, rfl, ?_⟩
                simp only [Bool.false_eq_true, if_false] at hsr
                simp only
                omega
              | true =>
                simp only [if_true] at hsr
                obtain ⟨reads, h1, h2⟩ :=
                  ih { tok := tok, key := key, value := v } (by simp only; omega)
                refine ⟨2 + skipSectionReads 1 rest2 + reads, ?_, ?_⟩
                · simp only [h1]
                · simp only at h2 ⊢
                  omega

/-- C18: `getNextKeyValue` terminates on every token stream. Run with any bound on its
iterations above the number of tokens left, the outer loop returns before the bound is
used up, with the result of `getNextKeyValue`; the number of tokens it has read is at
most the number of tokens left plus one, and it never gives a token back. At the end
of the input the outer loop returns `KeyValue_End` and the skip loop, at any depth,
leaves with an error. -/
theorem getNextKeyValue_terminates (ctx : MaterialContext) (extra : Nat) (d : Int)
    (s k v : CString) :
    (∃ reads, getNextKeyValueFuel (ctx.tok.cursor.length + 1 + extra) ctx
          = some ((getNextKeyValue ctx).1, (getNextKeyValue ctx).2, reads)
        ∧ reads ≤ ctx.tok.cursor.length + 1)
      ∧ (getNextKeyValue ctx).2.tok.cursor.length ≤ ctx.tok.cursor.length
      ∧ (getNextKeyValue { tok := { cursor := [], str := s }, key := k, value := v }).1
          = KeyValueResult.KeyValue_End
      ∧ skipSection d [] s = (false, { cursor := [], str := s })
      ∧ skipSectionReads d [] = 1 := by
  refine ⟨?_, ?_, rfl, rfl, rfl⟩
  · obtain ⟨reads, h1, h2⟩ :=
      getNextKeyValueFuel_spec (ctx.tok.cursor.length + 1 + extra) ctx (by omega)
    rw [getNextKeyValueLoop_eq _ ctx (by omega)] at h1 h2
    exact ⟨reads, h1, by omega⟩
  · exact (getNextKeyValueLoop_cursor (ctx.tok.cursor.length + 1) ctx).1

/-! ## The loop of `materialLoad` on entries followed by any tokens -/

theorem setItems_append_then {σ : Type} (E : Env σ)
    (get : CString → World σ → Outcome (Option Material × World σ))
    (a b : List Item) :
    ∀ (output : Material) (w : World σ),
      setItems E get (a ++ b) output w = thenItems E get b (setItems E get a output w) := by
  induction a with
  | nil => intro output w; rfl
  | cons it rest ih =>
    intro output w
    cases it with
    | block bk body => exact ih output w
    | pair pk pv =>
      simp only [List.cons_append, setItems]
      cases hset : setParam E get (keyParam pk) pv output w with
      | ok r => exact ih r.1 r.2
      | nullDeref => rfl
      | outOfFuel => rfl

/-- The loop of `materialLoad` on the entries of a definition followed by tokens on which
the loop, whatever the context holds, does `fin`. -/
theorem materialLoop_items_then {σ : Type} (E : Env σ)
    (get : CString → World σ → Outcome (Option Material × World σ))
    (tail : List Lexeme) (fin : Material → World σ → Outcome (Int × Material × World σ))
    (hfin : ∀ (k : Nat) (s key v : CString) (output : Material) (w : World σ),
      tail.length < k →
      materialLoop E get k { tok := { cursor := tail, str := s }, key := key, value := v }
        output w = fin output w) :
    ∀ (items : List Item), valuesFit items = true →
      ∀ (k : Nat) (s key v : CString) (output : Material) (w : World σ),
        (itemsLexemes items ++ tail).length < k →
        materialLoop E get k
            { tok := { cursor := itemsLexemes items ++ tail, str := s }, key := key,
              value := v } output w
          = thenLoad fin (setItems E get items output w) := by
  intro items
  induction items with
  | nil =>
    intro _ k s key v output w hk
    exact hfin k s key v output w hk
  | cons it items ih =>
    intro hfit k s key v output w hk
    cases k with
    | zero => omega
    | succ k =>
      cases it with
      | pair pk pv =>
        simp only [valuesFit, Bool.and_eq_true, decide_eq_true_eq] at hfit
        show materialLoop E get (k + 1)
          { tok := { str := s,
                     cursor := Lexeme.str pk :: Lexeme.str pv :: (itemsLexemes items ++ tail) },
            key := key, value := v } output w = _
        simp only [materialLoop, getNextKeyValue_pair pk pv _ s key v hfit.1, setItems]
        cases hset : setParam E get (keyParam pk) pv output w with
        | ok r =>
          obtain ⟨output1, w1⟩ := r
          simp only
          apply ih hfit.2
          simp only [itemsLexemes, Item.lexemes, List.cons_append, List.nil_append,
            List.length_cons] at hk
          omega
        | nullDeref => rfl
        | outOfFuel => rfl
      | block bk body =>
        simp only [valuesFit] at hfit
        have hcur : itemsLexemes (Item.block bk body :: items) ++ tail
            = Lexeme.str bk :: Lexeme.curlyOpen ::
                (body.lexemes ++ Lexeme.curlyClose :: (itemsLexemes items ++ tail)) := by
          simp [itemsLexemes, Item.lexemes]
        rw [hcur] at hk ⊢
        have hstep : materialLoop E get (k + 1)
            { tok := { str := s, cursor := Lexeme.str bk :: Lexeme.curlyOpen ::
                (body.lexemes ++ Lexeme.curlyClose :: (itemsLexemes items ++ tail)) },
              key := key, value := v } output w
            = materialLoop E get (k + 1)
                { tok := { cursor := itemsLexemes items ++ tail, str := body.lastStr bk },
                  key := bk, value := v } output w := by
          simp only [materialLoop, getNextKeyValue_block]
        rw [hstep]
        simp only [setItems]
        apply ih hfit
        simp only [List.length_cons, List.length_append] at hk ⊢
        omega

/-- The loop of `materialLoad` at tokens on which `getNextKeyValue` reports an error. -/
theorem materialLoop_error {σ : Type} (E : Env σ)
    (get : CString → World σ → Outcome (Option Material × World σ))
    (k : Nat) (ctx : MaterialContext) (output : Material) (w : World σ) (hk : 0 < k)
    (h : (getNextKeyValue ctx).1 = KeyValueResult.KeyValue_Error) :
    materialLoop E get k ctx output w = Outcome.ok (0, output, w) := by
  cases k with
  | zero => omega
  | succ k =>
    simp only [materialLoop]
    cases hkv : getNextKeyValue ctx with
    | mk res ctx1 =>
      rw [hkv] at h
      simp only at h
      rw [h]

/-- The loop of `materialLoad` at the end of a definition. -/
theorem materialLoop_end {σ : Type} (E : Env σ)
    (get : CString → World σ → Outcome (Option Material × World σ))
    (k : Nat) (ctx : MaterialContext) (output : Material) (w : World σ) (hk : 0 < k)
    (h : (getNextKeyValue ctx).1 = KeyValueResult.KeyValue_End) :
    materialLoop E get k ctx output w = Outcome.ok (1, withPlaceholder E output w, w) := by
  cases k with
  | zero => omega
  | succ k =>
    simp only [materialLoop]
    cases hkv : getNextKeyValue ctx with
    | mk res ctx1 =>
      rw [hkv] at h
      simp only at h
      rw [h]

theorem thenLoad_finish {σ : Type} (E : Env σ) (o : Outcome (Material × World σ)) :
    thenLoad (fun output w => Outcome.ok (1, withPlaceholder E output w, w)) o
      = finishLoad E o := by
  cases o with
  | ok r => rfl
  | nullDeref => rfl
  | outOfFuel => rfl

theorem thenLoad_fail {σ : Type} (o : Outcome (Material × World σ)) :
    thenLoad (fun output w => Outcome.ok (0, output, w)) o = failLoad o := by
  cases o with
  | ok r => rfl
  | nullDeref => rfl
  | outOfFuel => rfl

/-- The function `materialLoad` on a definition whose entries are followed by the end of
the input, or by a closing brace and any tokens: the entries are dispatched in order,
then the placeholder is applied. -/
theorem materialLoad_entries {σ : Type} (E : Env σ)
    (get : CString → World σ → Outcome (Option Material × World σ))
    (file : IFile) (output : Material) (w : World σ) (buf : List Char)
    (shader : CString) (items : List Item) (tail : List Lexeme)
    (hsize : file.size ≤ bufferSize - 1)
    (hread : file.read 0 file.size = (file.size, buf))
    (htok : E.tokenize buf
      = Lexeme.str shader :: Lexeme.curlyOpen :: (itemsLexemes items ++ tail))
    (htail : tail = [] ∨ ∃ rest, tail = Lexeme.curlyClose :: rest)
    (hfit : valuesFit items = true) :
    materialLoad E get file output w = finishLoad E (setItems E get items output w) := by
  rw [materialLoad_eq E get file output w buf shader _ hsize hread htok]
  exact materialLoop_items E get tail htail items hfit _ _ _ _ _ _ (Nat.lt_succ_self _)

/-- The function `materialLoad` on a definition whose entries are followed by tokens on
which `getNextKeyValue` reports an error: the entries are dispatched in order, then 0 is
returned. -/
theorem materialLoad_entries_error {σ : Type} (E : Env σ)
    (get : CString → World σ → Outcome (Option Material × World σ))
    (file : IFile) (output : Material) (w : World σ) (buf : List Char)
    (shader : CString) (items : List Item) (tail : List Lexeme)
    (hsize : file.size ≤ bufferSize - 1)
    (hread : file.read 0 file.size = (file.size, buf))
    (htok : E.tokenize buf
      = Lexeme.str shader :: Lexeme.curlyOpen :: (itemsLexemes items ++ tail))
    (htail : ∀ (s key v : CString),
      (getNextKeyValue { tok := { cursor := tail, str := s }, key := key, value := v }).1
        = KeyValueResult.KeyValue_Error)
    (hfit : valuesFit items = true) :
    materialLoad E get file output w = failLoad (setItems E get items output w) := by
  rw [materialLoad_eq E get file output w buf shader _ hsize hread htok, ← thenLoad_fail]
  apply materialLoop_items_then E get tail _ _ items hfit _ _ _ _ _ _ (Nat.lt_succ_self _)
  intro k s key v o w1 hk
  exact materialLoop_error E get k _ o w1 (by omega) (htail s key v)

/-! ## Claims about the dispatch and the shape of a definition -/

/-- C16: each texture key, spelled exactly and in any letter case, reaches its own
field. The dispatch of `materialLoad` on `$basetexture` stores what `textureGet` returns
for the value in the first base texture and nowhere else, on `$basetexture2` in the
second base texture, on `$detail` in the detail texture, on `$bumpmap` in the bump
map and on `$envmap` in the environment map; on `$basetexturetransform`,
`$basetexturetransform2` and `$detailscale` it changes neither the record nor the
state. -/
theorem setParam_texture_keys {σ : Type} (E : Env σ)
    (get : CString → World σ → Outcome (Option Material × World σ))
    (k1 k2 k3 k4 k5 k6 k7 k8 value : CString) (output : Material) (w : World σ)
    (h1 : normalize k1 = "$basetexture".toList)
    (h2 : normalize k2 = "$basetexture2".toList)
    (h3 : normalize k3 = "$detail".toList)
    (h4 : normalize k4 = "$bumpmap".toList)
    (h5 : normalize k5 = "$envmap".toList)
    (h6 : normalize k6 = "$basetexturetransform".toList)
    (h7 : normalize k7 = "$basetexturetransform2".toList)
    (h8 : normalize k8 = "$detailscale".toList) :
    setParam E get (keyParam k1) value output w
        = Outcome.ok ({ output with base_texture_0 := some (E.textureGet value w.textures).1 },
            { w with textures := (E.textureGet value w.textures).2 })
      ∧ setParam E get (keyParam k2) value output w
        = Outcome.ok ({ output with base_texture_1 := some (E.textureGet value w.textures).1 },
            { w with textures := (E.textureGet value w.textures).2 })
      ∧ setParam E get (keyParam k3) value output w
        = Outcome.ok ({ output with detail := some (E.textureGet value w.textures).1 },
            { w with textures := (E.textureGet value w.textures).2 })
      ∧ setParam E get (keyParam k4) value output w
        = Outcome.ok ({ output with bump := some (E.textureGet value w.textures).1 },
            { w with textures := (E.textureGet value w.textures).2 })
      ∧ setParam E get (keyParam k5) value output w
        = Outcome.ok ({ output with envmap := some (E.textureGet value w.textures).1 },
            { w with textures := (E.textureGet value w.textures).2 })
      ∧ setParam E get (keyParam k6) value output w = Outcome.ok (output, w)
      ∧ setParam E get (keyParam k7) value output w = Outcome.ok (output, w)
      ∧ setParam E get (keyParam k8) value output w = Outcome.ok (output, w) := by
  have e1 : keyParam k1 = Param.basetexture := by rw [← keyParam_normalize, h1]; rfl
  have e2 : keyParam k2 = Param.basetexture2 := by rw [← keyParam_normalize, h2]; rfl
  have e3 : keyParam k3 = Param.detail := by rw [← keyParam_normalize, h3]; rfl
  have e4 : keyParam k4 = Param.bumpmap := by rw [← keyParam_normalize, h4]; rfl
  have e5 : keyParam k5 = Param.envmap := by rw [← keyParam_normalize, h5]; rfl
  have e6 : keyParam k6 = Param.noop := by rw [← keyParam_normalize, h6]; rfl
  have e7 : keyParam k7 = Param.noop := by rw [← keyParam_normalize, h7]; rfl
  have e8 : keyParam k8 = Param.noop := by rw [← keyParam_normalize, h8]; rfl
  rw [e1, e2, e3, e4, e5, e6, e7, e8]
  exact ⟨rfl, rfl, rfl, rfl, rfl, rfl, rfl, rfl⟩

/-- C16, at a concrete input: the keys in mixed case, the value `t`, at start-up. -/
theorem setParam_texture_keys_witness :
    setParam demoEnv (materialGet demoEnv 0) (keyParam "$BaseTexture2".toList) "t".toList
        zeroMaterial startWorld
      = Outcome.ok ({ zeroMaterial with base_texture_1 := some 1 },
          { startWorld with textures := [placeholder, "t".toList] }) :=
  (setParam_texture_keys demoEnv (materialGet demoEnv 0) "$BASETEXTURE".toList
    "$BaseTexture2".toList "$Detail".toList "$BumpMap".toList "$EnvMap".toList
    "$BaseTextureTransform".toList "$basetexturetransform2".toList "$DetailScale".toList
    "t".toList zeroMaterial startWorld (by rfl) (by rfl) (by rfl) (by rfl) (by rfl) (by rfl)
    (by rfl) (by rfl)).2.1

set_option maxRecDepth 20000 in
/-- C12, as stated, fails: `$fancynewparam` with a value of 128 characters is not
accepted. `getNextKeyValue` reports an error on the pair and `materialLoad` returns 0,
while the definition without that pair, `"s" { }`, is loaded. -/
theorem materialLoad_unknown_key_counterexample :
    longValue.length = 128
      ∧ moreEnv.tokenize fancyLongText
        = definitionLexemes "s".toList [Item.pair "$fancynewparam".toList longValue]
      ∧ (getNextKeyValue
          { tok := { cursor := [Lexeme.str "$fancynewparam".toList, Lexeme.str longValue,
                       Lexeme.curlyClose], str := "s".toList },
            key := [], value := [] }).1 = KeyValueResult.KeyValue_Error
      ∧ materialLoad moreEnv (materialGet moreEnv 0) (textFile fancyLongText) zeroMaterial
          startWorld = Outcome.ok (0, zeroMaterial, startWorld)
      ∧ materialLoad moreEnv (materialGet moreEnv 0) (textFile emptyText) zeroMaterial
          startWorld = Outcome.ok (1, placeholderMaterial, startWorld) :=
  ⟨by rfl, by rfl, by rfl, by rfl, by rfl⟩

/-- C12, amended: an unknown key with a value that fits the value buffer (at most 127
characters) is never fatal. For a well-formed definition with the pair `$fancynewparam`
(in any letter case) and such a value: `getNextKeyValue` reads the pair, the dispatch
changes neither the record nor the state, and `materialLoad` ends as on
the definition without that pair; when the other entries are dispatched to the end, it
returns 1. -/
theorem materialLoad_unknown_key {σ : Type} (E : Env σ)
    (get : CString → World σ → Outcome (Option Material × World σ))
    (fileA fileB : IFile) (bufA bufB : List Char) (shader : CString)
    (before after : List Item) (key value : CString) (output : Material) (w : World σ)
    (hsizeA : fileA.size ≤ bufferSize - 1)
    (hreadA : fileA.read 0 fileA.size = (fileA.size, bufA))
    (htokA : E.tokenize bufA
      = definitionLexemes shader (before ++ Item.pair key value :: after))
    (hsizeB : fileB.size ≤ bufferSize - 1)
    (hreadB : fileB.read 0 fileB.size = (fileB.size, bufB))
    (htokB : E.tokenize bufB = definitionLexemes shader (before ++ after))
    (hfit : valuesFit (before ++ Item.pair key value :: after) = true)
    (hkey : normalize key = "$fancynewparam".toList) :
    (∀ (rest : List Lexeme) (s k v : CString),
        getNextKeyValue
            { tok := { cursor := Lexeme.str key :: Lexeme.str value :: rest, str := s },
              key := k, value := v }
          = (KeyValueResult.KeyValue_Read,
              { tok := { cursor := rest, str := value }, key := key, value := value }))
      ∧ (∀ (o : Material) (w1 : World σ),
          setParam E get (keyParam key) value o w1 = Outcome.ok (o, w1))
      ∧ materialLoad E get fileA output w = materialLoad E get fileB output w
      ∧ (∀ (o : Material) (w1 : World σ),
          setItems E get (before ++ after) output w = Outcome.ok (o, w1) →
          materialLoad E get fileA output w = Outcome.ok (1, withPlaceholder E o w1, w1)) := by
  have hkp : keyParam key = Param.unknown := by
    rw [← keyParam_normalize, hkey]; rfl
  have hfit2 := hfit
  rw [valuesFit_append] at hfit2
  simp only [valuesFit, Bool.and_eq_true, decide_eq_true_eq] at hfit2
  have hfitB : valuesFit (before ++ after) = true := by
    rw [valuesFit_append, hfit2.1, hfit2.2.2]
    rfl
  have hsame : setItems E get (before ++ Item.pair key value :: after) output w
      = setItems E get (before ++ after) output w := by
    rw [setItems_append_then, setItems_append_then]
    cases setItems E get before output w with
    | ok r => simp only [thenItems, setItems, hkp, setParam]
    | nullDeref => rfl
    | outOfFuel => rfl
  have hA := materialLoad_definition E get fileA output w bufA shader _ hsizeA hreadA htokA hfit
  have hB := materialLoad_definition E get fileB output w bufB shader _ hsizeB hreadB htokB
    hfitB
  refine ⟨?_, ?_, ?_, ?_⟩
  · intro rest s k v
    exact getNextKeyValue_pair key value rest s k v hfit2.2.1
  · intro o w1
    rw [hkp]
    rfl
  · rw [hA, hB, hsame]
  · intro o w1 h
    rw [hA, hsame, h]
    rfl

/-- C12 amended, at a concrete input: the definitions `fancy` and `nofancy` of the
examples. -/
theorem materialLoad_unknown_key_witness :
    materialLoad moreEnv (materialGet moreEnv 0) (textFile fancyText) zeroMaterial startWorld
      = Outcome.ok (1,
          withPlaceholder moreEnv
            { zeroMaterial with base_texture_0 := some 1, bump := some 2 }
            { startWorld with textures := [placeholder, "a".toList, "v".toList] },
          { startWorld with textures := [placeholder, "a".toList, "v".toList] }) :=
  (materialLoad_unknown_key moreEnv (materialGet moreEnv 0) (textFile fancyText)
    (textFile nofancyText) fancyText nofancyText "s".toList
    [Item.pair "$basetexture".toList "a".toList] [Item.pair "$bumpmap".toList "v".toList]
    "$FancyNewParam".toList "7".toList zeroMaterial startWorld (by decide) (by rfl) (by rfl)
    (by decide) (by rfl) (by rfl) (by rfl) (by rfl)).2.2.2
    { zeroMaterial with base_texture_0 := some 1, bump := some 2 }
    { startWorld with textures := [placeholder, "a".toList, "v".toList] } (by rfl)

/-- C20: the closing brace of a definition is optional and what follows it is ignored.
For entries whose values fit the buffer, `materialLoad` ends on the tokens
`shader { entries` that stop at the end of the input, and on the tokens
`shader { entries } rest` for any `rest`, as it does on `shader { entries }`: when the
entries are dispatched to the end it returns 1 with the same record and state. -/
theorem materialLoad_closing_brace {σ : Type} (E : Env σ)
    (get : CString → World σ → Outcome (Option Material × World σ))
    (fileA fileB fileC : IFile) (bufA bufB bufC : List Char) (shader : CString)
    (items : List Item) (rest : List Lexeme) (output : Material) (w : World σ)
    (hsizeA : fileA.size ≤ bufferSize - 1)
    (hreadA : fileA.read 0 fileA.size = (fileA.size, bufA))
    (htokA : E.tokenize bufA = definitionLexemes shader items)
    (hsizeB : fileB.size ≤ bufferSize - 1)
    (hreadB : fileB.read 0 fileB.size = (fileB.size, bufB))
    (htokB : E.tokenize bufB = Lexeme.str shader :: Lexeme.curlyOpen :: itemsLexemes items)
    (hsizeC : fileC.size ≤ bufferSize - 1)
    (hreadC : fileC.read 0 fileC.size = (fileC.size, bufC))
    (htokC : E.tokenize bufC
      = Lexeme.str shader :: Lexeme.curlyOpen ::
          (itemsLexemes items ++ Lexeme.curlyClose :: rest))
    (hfit : valuesFit items = true) :
    materialLoad E get fileB output w = materialLoad E get fileA output w
      ∧ materialLoad E get fileC output w = materialLoad E get fileA output w
      ∧ (∀ (o : Material) (w1 : World σ),
          setItems E get items output w = Outcome.ok (o, w1) →
          materialLoad E get fileA output w = Outcome.ok (1, withPlaceholder E o w1, w1)
            ∧ materialLoad E get fileB output w
              = Outcome.ok (1, withPlaceholder E o w1, w1)
            ∧ materialLoad E get fileC output w
              = Outcome.ok (1, withPlaceholder E o w1, w1)) := by
  have hA := materialLoad_definition E get fileA output w bufA shader _ hsizeA hreadA htokA hfit
  have hB := materialLoad_entries E get fileB output w bufB shader items [] hsizeB hreadB
    (by rw [List.append_nil]; exact htokB) (Or.inl rfl) hfit
  have hC := materialLoad_entries E get fileC output w bufC shader items
    (Lexeme.curlyClose :: rest) hsizeC hreadC htokC (Or.inr ⟨rest, rfl⟩) hfit
  refine ⟨by rw [hA, hB], by rw [hA, hC], ?_⟩
  intro o w1 h
  rw [hA, hB, hC, h]
  exact ⟨rfl, rfl, rfl⟩

/-- C20, at a concrete input: the definitions `closed`, `open` and `trailing` of the
examples. -/
theorem materialLoad_closing_brace_witness :
    materialLoad moreEnv (materialGet moreEnv 0) (textFile openText) zeroMaterial startWorld
        = materialLoad moreEnv (materialGet moreEnv 0) (textFile closedText) zeroMaterial
            startWorld
      ∧ materialLoad moreEnv (materialGet moreEnv 0) (textFile trailingText) zeroMaterial
          startWorld
        = materialLoad moreEnv (materialGet moreEnv 0) (textFile closedText) zeroMaterial
            startWorld :=
  ⟨(materialLoad_closing_brace moreEnv (materialGet moreEnv 0) (textFile closedText)
      (textFile openText) (textFile trailingText) closedText openText trailingText
      "s".toList [Item.pair "$basetexture".toList "a".toList]
      [Lexeme.str "$bumpmap".toList, Lexeme.curlyOpen, Lexeme.curlyClose] zeroMaterial
      startWorld (by decide) (by rfl) (by rfl) (by decide) (by rfl) (by rfl) (by decide)
      (by rfl) (by rfl) (by rfl)).1,
    (materialLoad_closing_brace moreEnv (materialGet moreEnv 0) (textFile closedText)
      (textFile openText) (textFile trailingText) closedText openText trailingText
      "s".toList [Item.pair "$basetexture".toList "a".toList]
      [Lexeme.str "$bumpmap".toList, Lexeme.curlyOpen, Lexeme.curlyClose] zeroMaterial
      startWorld (by decide) (by rfl) (by rfl) (by decide) (by rfl) (by rfl) (by decide)
      (by rfl) (by rfl) (by rfl)).2.1⟩

/-- With a header other than a string followed by an opening brace `materialLoad` returns
0 at once. -/
theorem materialLoad_bad_header {σ : Type} (E : Env σ)
    (get : CString → World σ → Outcome (Option Material × World σ))
    (file : IFile) (output : Material) (w : World σ)
    (hbad : ¬ ∃ shader l,
      E.tokenize (file.read 0 file.size).2 = Lexeme.str shader :: Lexeme.curlyOpen :: l) :
    materialLoad E get file output w = Outcome.ok (0, output, w) := by
  unfold materialLoad
  by_cases h1 : file.size > bufferSize - 1
  · rw [if_pos h1]
  · rw [if_neg h1]
    simp only
    by_cases h2 : file.size ≠ (file.read 0 file.size).1
    · rw [if_pos h2]
    · rw [if_neg h2]
      cases htk : E.tokenize (file.read 0 file.size).2 with
      | nil => rfl
      | cons x rest =>
        cases x with
        | curlyOpen => rfl
        | curlyClose => rfl
        | str shader =>
          cases rest with
          | nil => rfl
          | cons y rest2 =>
            cases y with
            | str t => rfl
            | curlyClose => rfl
            | curlyOpen => exact absurd ⟨shader, rest2, htk⟩ hbad

/-- C14: the header of a definition. When the tokens of the file do not start with a
string followed by an opening brace, `materialLoad` returns 0 with the record and the
state untouched, whatever the recursive `materialGet` is, and `materialGet`, for a
name that is not cached, returns what the cache holds for the placeholder name.
Conversely `materialLoad` returns a value other than 0 only on tokens that start
with a string followed by an opening brace. -/
theorem materialLoad_header {σ : Type} (E : Env σ)
    (get : CString → World σ → Outcome (Option Material × World σ))
    (file : IFile) (output : Material) (w : World σ) (n : Nat) (name : CString)
    (hmiss : cacheGetMaterial name w = none)
    (hopen : E.collectionChainOpen name = some file)
    (hbad : ¬ ∃ shader l,
      E.tokenize (file.read 0 file.size).2 = Lexeme.str shader :: Lexeme.curlyOpen :: l) :
    materialLoad E get file output w = Outcome.ok (0, output, w)
      ∧ materialGet E (n + 1) name w = Outcome.ok (cacheGetMaterial placeholder w, w)
      ∧ (∀ (g : IFile) (get2 : CString → World σ → Outcome (Option Material × World σ))
          (out2 o : Material) (w0 w1 : World σ) (r : Int),
          materialLoad E get2 g out2 w0 = Outcome.ok (r, o, w1) → r ≠ 0 →
          ∃ shader l,
            E.tokenize (g.read 0 g.size).2 = Lexeme.str shader :: Lexeme.curlyOpen :: l) := by
  refine ⟨materialLoad_bad_header E get file output w hbad, ?_, ?_⟩
  · exact materialGet_of_failed_load E n name w w file zeroMaterial hmiss hopen
      (materialLoad_bad_header E _ file zeroMaterial w hbad)
  · intro g get2 out2 o w0 w1 r h hr
    by_contra hnot
    rw [materialLoad_bad_header E get2 g out2 w0 hnot] at h
    simp only [Outcome.ok.injEq, Prod.mk.injEq] at h
    exact hr h.1.symm

/-- C14, at a concrete input: the definition `badheader` of the examples, `{ "s" }`. -/
theorem materialLoad_header_witness :
    materialLoad moreEnv (materialGet moreEnv 0) (textFile badHeaderText)
        { zeroMaterial with bump := some 4 } startWorld
        = Outcome.ok (0, { zeroMaterial with bump := some 4 }, startWorld)
      ∧ materialGet moreEnv 1 "badheader".toList startWorld
        = Outcome.ok (some placeholderMaterial, startWorld) :=
  ⟨(materialLoad_header moreEnv (materialGet moreEnv 0) (textFile badHeaderText)
      { zeroMaterial with bump := some 4 } startWorld 0 "badheader".toList (by rfl) (by rfl)
      (by
        rintro ⟨shader, l, h⟩
        have h2 : moreEnv.tokenize ((textFile badHeaderText).read 0
            (textFile badHeaderText).size).2 = badHeaderLexemes := by rfl
        rw [h2] at h
        cases h)).1,
    (materialLoad_header moreEnv (materialGet moreEnv 0) (textFile badHeaderText)
      { zeroMaterial with bump := some 4 } startWorld 0 "badheader".toList (by rfl) (by rfl)
      (by
        rintro ⟨shader, l, h⟩
        have h2 : moreEnv.tokenize ((textFile badHeaderText).read 0
            (textFile badHeaderText).size).2 = badHeaderLexemes := by rfl
        rw [h2] at h
        cases h)).2.1⟩

/-- C13: unbalanced nesting is a parse failure. On a key followed by an opening brace
and tokens through which the depth counter, started at 1, stays above zero up to the
end of the input, `getNextKeyValue` returns `KeyValue_Error`. For a definition whose
entries, dispatched to the end, are followed by such a key, `materialLoad` returns 0,
and `materialGet`, for a name that is not cached, stores nothing, the state being as
`materialLoad` left it, and returns what the cache holds for the placeholder name. -/
theorem materialLoad_unclosed_block {σ : Type} (E : Env σ) (n : Nat) (name : CString)
    (w w1 : World σ) (file : IFile) (buf : List Char) (shader key : CString)
    (items : List Item) (l : List Lexeme) (o : Material)
    (hmiss : cacheGetMaterial name w = none)
    (hopen : E.collectionChainOpen name = some file)
    (hsize : file.size ≤ bufferSize - 1)
    (hread : file.read 0 file.size = (file.size, buf))
    (htok : E.tokenize buf
      = Lexeme.str shader :: Lexeme.curlyOpen ::
          (itemsLexemes items ++ Lexeme.str key :: Lexeme.curlyOpen :: l))
    (hdepth : ∀ i, 0 < depthAfter 1 (l.take i))
    (hfit : valuesFit items = true)
    (hitems : setItems E (materialGet E n) items zeroMaterial w = Outcome.ok (o, w1)) :
    (∀ (s k v : CString),
        (getNextKeyValue
          { tok := { cursor := Lexeme.str key :: Lexeme.curlyOpen :: l, str := s },
            key := k, value := v }).1 = KeyValueResult.KeyValue_Error)
      ∧ materialLoad E (materialGet E n) file zeroMaterial w = Outcome.ok (0, o, w1)
      ∧ materialGet E (n + 1) name w = Outcome.ok (cacheGetMaterial placeholder w1, w1) := by
  have hload : materialLoad E (materialGet E n) file zeroMaterial w = Outcome.ok (0, o, w1) := by
    rw [materialLoad_entries_error E _ file zeroMaterial w buf shader items _ hsize hread htok
      (fun s k v => getNextKeyValue_never_closed key l s k v hdepth) hfit, hitems]
    rfl
  exact ⟨fun s k v => getNextKeyValue_never_closed key l s k v hdepth, hload,
    materialGet_of_failed_load E n name w w1 file o hmiss hopen hload⟩

/-- C13, at a concrete input: the definition `unclosed` of the examples,
`"s" { "$basetexture" "a" "proxies" { "x" { "y"`. -/
theorem materialLoad_unclosed_block_witness :
    materialGet moreEnv 1 "unclosed".toList startWorld
      = Outcome.ok (some placeholderMaterial,
          { startWorld with textures := [placeholder, "a".toList] }) :=
  (materialLoad_unclosed_block moreEnv 0 "unclosed".toList startWorld
    { startWorld with textures := [placeholder, "a".toList] } (textFile unclosedText)
    unclosedText "s".toList "proxies".toList [Item.pair "$basetexture".toList "a".toList]
    [Lexeme.str "x".toList, Lexeme.curlyOpen, Lexeme.str "y".toList]
    { zeroMaterial with base_texture_0 := some 1 } (by rfl) (by rfl) (by decide) (by rfl)
    (by rfl)
    (by
      intro i
      rcases i with _ | _ | _ | i <;> simp [depthAfter])
    (by rfl) (by rfl)).2.2

/-- C11, the code at the failing inputs: the value of an `include` is cut at the first
`.vmt` it contains, wherever that is. `materials/foo.vmtx` does not end in `.vmt` and
yet gives the name `foo`; `materials/a.vmtb/c` gives `a`; `materials/x.vmt.vmt`
gives `x` and not `x.vmt`; and `sub.vmt/materials/foo`, which starts with a
directory `sub.vmt`, is cut to `sub`. The definition
`"s" { "include" "materials/foo.vmtx" }` is replaced by the record of `foo`. A value
whose only `.vmt` is at its end, or that has none, gives the name the claim says. -/
theorem includeName_first_vmt :
    includeName "materials/foo.vmtx".toList = some "foo".toList
      ∧ includeName "materials/a.vmtb/c".toList = some "a".toList
      ∧ includeName "materials/x.vmt.vmt".toList = some "x".toList
      ∧ includeName "sub.vmt/materials/foo".toList = none
      ∧ includeName "materials/foo.vmt".toList = some "foo".toList
      ∧ includeName "materials/foo".toList = some "foo".toList
      ∧ includeName "models/foo".toList = none
      ∧ moreEnv.tokenize vmtText
        = definitionLexemes "s".toList
            [Item.pair "include".toList "materials/foo.vmtx".toList]
      ∧ materialGet moreEnv 2 "vmt".toList startWorld
        = Outcome.ok (some { zeroMaterial with base_texture_0 := some 1, bump := some 2 },
            cachePutMaterial "vmt".toList
              { zeroMaterial with base_texture_0 := some 1, bump := some 2 }
              (cachePutMaterial "foo".toList
                { zeroMaterial with base_texture_0 := some 1, bump := some 2 }
                { startWorld with textures := [placeholder, "b".toList, "w".toList] })) :=
  ⟨by rfl, by rfl, by rfl, by rfl, by rfl, by rfl, by rfl, by rfl, by rfl⟩

/-! ## Properties of the state that every call preserves -/

/-- A property of the state that `textureGet` and the recursive `materialGet` preserve is
preserved by the dispatch of a pair. -/
theorem setParam_preserves {σ : Type} (E : Env σ)
    (get : CString → World σ → Outcome (Option Material × World σ))
    (I : World σ → Prop)
    (htex : ∀ (w : World σ) (v : CString), I w →
      I { w with textures := (E.textureGet v w.textures).2 })
    (hget : ∀ nm w r w1, I w → get nm w = Outcome.ok (r, w1) → I w1)
    (p : Param) (value : CString) (output o1 : Material) (w w1 : World σ)
    (h : setParam E get p value output w = Outcome.ok (o1, w1)) (hI : I w) : I w1 := by
  cases p
  case includeMaterial =>
    simp only [setParam] at h
    cases hn : includeName value with
    | none =>
      rw [hn] at h
      simp only [Outcome.ok.injEq, Prod.mk.injEq] at h
      rw [← h.2]
      exact hI
    | some name =>
      rw [hn] at h
      simp only at h
      cases hg : get name w with
      | ok r =>
        obtain ⟨r1, r2⟩ := r
        rw [hg] at h
        cases r1 with
        | none => cases h
        | some mat =>
          simp only [Outcome.ok.injEq, Prod.mk.injEq] at h
          rw [← h.2]
          exact hget name w _ _ hI hg
      | nullDeref => rw [hg] at h; cases h
      | outOfFuel => rw [hg] at h; cases h
  all_goals
    simp only [setParam, Outcome.ok.injEq, Prod.mk.injEq] at h
    rw [← h.2]
    first
      | exact hI
      | exact htex w value hI

theorem setItems_preserves {σ : Type} (E : Env σ)
    (get : CString → World σ → Outcome (Option Material × World σ))
    (I : World σ → Prop)
    (htex : ∀ (w : World σ) (v : CString), I w →
      I { w with textures := (E.textureGet v w.textures).2 })
    (hget : ∀ nm w r w1, I w → get nm w = Outcome.ok (r, w1) → I w1)
    (items : List Item) :
    ∀ (output o1 : Material) (w w1 : World σ),
      setItems E get items output w = Outcome.ok (o1, w1) → I w → I w1 := by
  induction items with
  | nil =>
    intro output o1 w w1 h hI
    simp only [setItems, Outcome.ok.injEq, Prod.mk.injEq] at h
    rw [← h.2]
    exact hI
  | cons it rest ih =>
    intro output o1 w w1 h hI
    cases it with
    | block bk body => exact ih output o1 w w1 h hI
    | pair pk pv =>
      simp only [setItems] at h
      cases hset : setParam E get (keyParam pk) pv output w with
      | ok q =>
        rw [hset] at h
        exact ih q.1 o1 q.2 w1 h
          (setParam_preserves E get I htex hget _ pv output q.1 w q.2 hset hI)
      | nullDeref => rw [hset] at h; cases h
      | outOfFuel => rw [hset] at h; cases h

/-- The loop of `materialLoad` preserves such a property, and a record it returns with a
value other than 0 has gone through the placeholder step. -/
theorem materialLoop_preserves {σ : Type} (E : Env σ)
    (get : CString → World σ → Outcome (Option Material × World σ))
    (I : World σ → Prop)
    (htex : ∀ (w : World σ) (v : CString), I w →
      I { w with textures := (E.textureGet v w.textures).2 })
    (hget : ∀ nm w r w1, I w → get nm w = Outcome.ok (r, w1) → I w1) :
    ∀ (k : Nat) (ctx : MaterialContext) (output o1 : Material) (w w1 : World σ) (r : Int),
      materialLoop E get k ctx output w = Outcome.ok (r, o1, w1) → I w →
      I w1 ∧ (r ≠ 0 → ∃ o2, o1 = withPlaceholder E o2 w1) := by
  intro k
  induction k with
  | zero => intro ctx output o1 w w1 r h; cases h
  | succ k ih =>
    intro ctx output o1 w w1 r h hI
    simp only [materialLoop] at h
    cases hkv : getNextKeyValue ctx with
    | mk res ctx1 =>
      rw [hkv] at h
      cases res with
      | KeyValue_End =>
        simp only [Outcome.ok.injEq, Prod.mk.injEq] at h
        rw [← h.2.2, ← h.2.1]
        exact ⟨hI, fun _ => ⟨output, rfl⟩⟩
      | KeyValue_Error =>
        simp only [Outcome.ok.injEq, Prod.mk.injEq] at h
        rw [← h.2.2, ← h.1]
        exact ⟨hI, fun hr => absurd rfl hr⟩
      | KeyValue_Read =>
        simp only at h
        cases hset : setParam E get (keyParam ctx1.key) ctx1.value output w with
        | ok q =>
          obtain ⟨o2, w2⟩ := q
          rw [hset] at h
          exact ih ctx1 o2 o1 w2 w1 r h
            (setParam_preserves E get I htex hget _ _ output o2 w w2 hset hI)
        | nullDeref => rw [hset] at h; cases h
        | outOfFuel => rw [hset] at h; cases h

/-- The function `materialLoad` either returns 0 at once or is its loop. -/
theorem materialLoad_cases {σ : Type} (E : Env σ)
    (get : CString → World σ → Outcome (Option Material × World σ))
    (file : IFile) (output : Material) (w : World σ) :
    materialLoad E get file output w = Outcome.ok (0, output, w)
      ∨ ∃ k ctx, materialLoad E get file output w = materialLoop E get k ctx output w := by
  by_cases hbad : ∃ shader l,
      E.tokenize (file.read 0 file.size).2 = Lexeme.str shader :: Lexeme.curlyOpen :: l
  · obtain ⟨shader, l, htk⟩ := hbad
    by_cases h1 : file.size > bufferSize - 1
    · exact Or.inl (materialLoad_oversize E get file output w h1)
    · by_cases h2 : file.size ≠ (file.read 0 file.size).1
      · exact Or.inl (materialLoad_short_read E get file output w h2)
      · refine Or.inr ⟨_, _, materialLoad_eq E get file output w (file.read 0 file.size).2
          shader l (by omega) ?_ htk⟩
        have h3 : file.size = (file.read 0 file.size).1 := by
          by_contra h4
          exact h2 h4
        exact Prod.ext h3.symm rfl
  · exact Or.inl (materialLoad_bad_header E get file output w hbad)

theorem materialLoad_preserves {σ : Type} (E : Env σ)
    (get : CString → World σ → Outcome (Option Material × World σ))
    (I : World σ → Prop)
    (htex : ∀ (w : World σ) (v : CString), I w →
      I { w with textures := (E.textureGet v w.textures).2 })
    (hget : ∀ nm w r w1, I w → get nm w = Outcome.ok (r, w1) → I w1)
    (file : IFile) (output o1 : Material) (w w1 : World σ) (r : Int)
    (h : materialLoad E get file output w = Outcome.ok (r, o1, w1)) (hI : I w) :
    I w1 ∧ (r ≠ 0 → ∃ o2, o1 = withPlaceholder E o2 w1) := by
  rcases materialLoad_cases E get file output w with h0 | ⟨k, ctx, hk⟩
  · rw [h0] at h
    simp only [Outcome.ok.injEq, Prod.mk.injEq] at h
    rw [← h.2.2, ← h.1]
    exact ⟨hI, fun hr => absurd rfl hr⟩
  · rw [hk] at h
    exact materialLoop_preserves E get I htex hget k ctx output o1 w w1 r h hI

/-! ## The first base texture of cached and returned records -/

theorem cacheGetMaterial_mem {σ : Type} (x : CString) (w : World σ) (m : Material)
    (h : cacheGetMaterial x w = some m) : ∃ e ∈ w.materials, e.2 = m := by
  unfold cacheGetMaterial at h
  cases hf : w.materials.find? (fun e => decide (normalize e.1 = normalize x)) with
  | none => rw [hf] at h; cases h
  | some e =>
    rw [hf] at h
    simp only [Option.map_some', Option.some.injEq] at h
    exact ⟨e, List.mem_of_find?_eq_some hf, h⟩

theorem withPlaceholder_base {σ : Type} (E : Env σ) (output : Material) (w : World σ)
    (h : E.cacheGetTexture placeholder w.textures ≠ none) :
    (withPlaceholder E output w).base_texture_0 ≠ none := by
  unfold withPlaceholder
  by_cases h0 : output.base_texture_0 = none
  · rw [if_pos h0]
    exact h
  · rw [if_neg h0]
    exact h0

theorem BaseTextureSet_put {σ : Type} (E : Env σ) (name : CString) (mat : Material)
    (w : World σ) (h : BaseTextureSet E w) (hm : mat.base_texture_0 ≠ none) :
    BaseTextureSet E (cachePutMaterial name mat w) := by
  refine ⟨?_, h.2⟩
  intro e he
  simp only [cachePutMaterial, List.mem_cons, List.mem_filter] at he
  rcases he with he | he
  · rw [he]
    exact hm
  · exact h.1 e he.1

/-- Every call of `materialGet` that returns keeps the records of the cache with their
first base texture set, and returns such a record. -/
theorem materialGet_baseTextureSet {σ : Type} (E : Env σ)
    (hkeep : ∀ (v : CString) (t : σ), E.cacheGetTexture placeholder t ≠ none →
      E.cacheGetTexture placeholder (E.textureGet v t).2 ≠ none) :
    ∀ (n : Nat) (name : CString) (w : World σ) (r : Option Material) (w1 : World σ),
      BaseTextureSet E w → materialGet E n name w = Outcome.ok (r, w1) →
      BaseTextureSet E w1 ∧ ∀ m, r = some m → m.base_texture_0 ≠ none := by
  have htex : ∀ (w : World σ) (v : CString), BaseTextureSet E w →
      BaseTextureSet E { w with textures := (E.textureGet v w.textures).2 } :=
    fun w v h => ⟨h.1, hkeep v w.textures h.2⟩
  have hfrom : ∀ (x : CString) (w : World σ), BaseTextureSet E w →
      ∀ m, cacheGetMaterial x w = some m → m.base_texture_0 ≠ none := by
    intro x w hw m hm
    obtain ⟨e, he, hem⟩ := cacheGetMaterial_mem x w m hm
    rw [← hem]
    exact hw.1 e he
  intro n
  induction n with
  | zero => intro name w r w1 _ h; cases h
  | succ n ih =>
    intro name w r w1 hw h
    simp only [materialGet] at h
    cases hc : cacheGetMaterial name w with
    | some mat =>
      rw [hc] at h
      simp only [Outcome.ok.injEq, Prod.mk.injEq] at h
      rw [← h.2, ← h.1]
      exact ⟨hw, fun m hm => hfrom name w hw m (by rw [hc, hm])⟩
    | none =>
      rw [hc] at h
      simp only at h
      cases ho : E.collectionChainOpen name with
      | none =>
        rw [ho] at h
        simp only [Outcome.ok.injEq, Prod.mk.injEq] at h
        rw [← h.2, ← h.1]
        exact ⟨hw, fun m hm => hfrom placeholder w hw m hm⟩
      | some file =>
        rw [ho] at h
        simp only at h
        cases hl : materialLoad E (materialGet E n) file zeroMaterial w with
        | nullDeref => rw [hl] at h; cases h
        | outOfFuel => rw [hl] at h; cases h
        | ok q =>
          obtain ⟨ret, localmat, w2⟩ := q
          rw [hl] at h
          have hstep := materialLoad_preserves E (materialGet E n) (BaseTextureSet E) htex
            (fun nm w0 r0 w3 h0 hg => (ih nm w0 r0 w3 h0 hg).1) file _ _ _ _ _ hl hw
          simp only at h
          by_cases hr : ret = 0
          · rw [if_pos hr] at h
            simp only [Outcome.ok.injEq, Prod.mk.injEq] at h
            rw [← h.2, ← h.1]
            exact ⟨hstep.1, fun m hm => hfrom placeholder w2 hstep.1 m hm⟩
          · rw [if_neg hr, cacheGetMaterial_put_same] at h
            simp only [Outcome.ok.injEq, Prod.mk.injEq] at h
            rw [← h.2, ← h.1]
            obtain ⟨o2, ho2⟩ := hstep.2 hr
            have hbase : localmat.base_texture_0 ≠ none := by
              rw [ho2]
              exact withPlaceholder_base E o2 w2 hstep.1.2
            refine ⟨BaseTextureSet_put E name localmat w2 hstep.1 hbase, ?_⟩
            intro m hm
            simp only [Option.some.injEq] at hm
            rw [← hm]
            exact hbase

/-- C17: the cache invariant. Provided the texture cache holds the placeholder texture,
and keeps it when textures are resolved, and every record of the material cache has
its first base texture set: after every call of `materialGet` that returns, every
record of the material cache, among them the ones the call has inserted, has its first
base texture set, and so has the record the call returns, whether it comes from the
cache, from a definition, from an `include` or is the placeholder record; and the
texture cache still holds the placeholder texture. -/
theorem materialGet_base_texture_invariant {σ : Type} (E : Env σ) (n : Nat)
    (name : CString) (w w1 : World σ) (r : Option Material)
    (hkeep : ∀ (v : CString) (t : σ), E.cacheGetTexture placeholder t ≠ none →
      E.cacheGetTexture placeholder (E.textureGet v t).2 ≠ none)
    (hph : E.cacheGetTexture placeholder w.textures ≠ none)
    (hcache : ∀ e ∈ w.materials, e.2.base_texture_0 ≠ none)
    (hget : materialGet E n name w = Outcome.ok (r, w1)) :
    (∀ e ∈ w1.materials, e.2.base_texture_0 ≠ none)
      ∧ (∀ m, r = some m → m.base_texture_0 ≠ none)
      ∧ E.cacheGetTexture placeholder w1.textures ≠ none := by
  have h := materialGet_baseTextureSet E hkeep n name w r w1 ⟨hcache, hph⟩ hget
  exact ⟨h.1.1, h.2, h.1.2⟩

/-- The placeholder texture stays loaded in the environments of the examples. -/
theorem tableEnv_keeps_placeholder (files : List (CString × List Char × List Lexeme))
    (v : CString) (t : List CString)
    (h : (tableEnv files).cacheGetTexture placeholder t ≠ none) :
    (tableEnv files).cacheGetTexture placeholder ((tableEnv files).textureGet v t).2
      ≠ none := by
  simp only [tableEnv] at h ⊢
  have hmem : placeholder ∈ t := by
    by_contra hne
    rw [if_neg hne] at h
    exact h rfl
  by_cases hv : v ∈ t
  · rw [if_pos hv]
    simp only
    rw [if_pos hmem]
    exact Option.some_ne_none _
  · rw [if_neg hv]
    simp only
    rw [if_pos (List.mem_append_left _ hmem)]
    exact Option.some_ne_none _

/-- C17, at a concrete input: the definition `bar` of the examples, which includes
`foo`, resolved at start-up. -/
theorem materialGet_base_texture_invariant_witness :
    (∀ e ∈ (cachePutMaterial "bar".toList
          { zeroMaterial with base_texture_0 := some 2, bump := some 3 }
          (cachePutMaterial "foo".toList
            { zeroMaterial with base_texture_0 := some 2, bump := some 3 }
            { startWorld with
              textures := [placeholder, "a".toList, "b".toList, "w".toList] })).materials,
        e.2.base_texture_0 ≠ none)
      ∧ (∀ m, some ({ zeroMaterial with base_texture_0 := some 2, bump := some 3 } : Material)
          = some m → m.base_texture_0 ≠ none) :=
  ⟨(materialGet_base_texture_invariant demoEnv 2 "bar".toList startWorld _ _
      (tableEnv_keeps_placeholder demoFiles) (by decide) (by decide) (by rfl)).1,
    (materialGet_base_texture_invariant demoEnv 2 "bar".toList startWorld
      (cachePutMaterial "bar".toList
        { zeroMaterial with base_texture_0 := some 2, bump := some 3 }
        (cachePutMaterial "foo".toList
          { zeroMaterial with base_texture_0 := some 2, bump := some 3 }
          { startWorld with
            textures := [placeholder, "a".toList, "b".toList, "w".toList] }))
      (some { zeroMaterial with base_texture_0 := some 2, bump := some 3 })
      (tableEnv_keeps_placeholder demoFiles) (by decide) (by decide) (by rfl)).2.1⟩

/-! ## Definitions that include one another -/

theorem Uncached_textures {σ : Type} (E : Env σ) (S : CString → Prop) (w : World σ)
    (v : CString) (h : Uncached S w) :
    Uncached S { w with textures := (E.textureGet v w.textures).2 } :=
  fun y hy => h y hy

/-- In a set of names, closed under change of letter case, in which every definition
includes a definition of the set, and none of which is cached: no call of
`materialGet` that returns stores a record under a name of the set, and no call for a
name of the set returns, whatever the bound on the depth of the recursion. -/
theorem materialGet_cycle {σ : Type} (E : Env σ) (S : CString → Prop)
    (hclosed : ∀ x y, S x → normalize y = normalize x → S y)
    (hS : ∀ x, S x → IncludesMember E S x) :
    ∀ (n : Nat),
      (∀ (nm : CString) (w : World σ) (r : Option Material) (w1 : World σ),
        Uncached S w → materialGet E n nm w = Outcome.ok (r, w1) → Uncached S w1)
      ∧ (∀ (x : CString) (w : World σ), S x → Uncached S w →
          ∀ r, materialGet E n x w ≠ Outcome.ok r) := by
  intro n
  induction n with
  | zero =>
    exact ⟨fun nm w r w1 _ h => (by cases h), fun x w _ _ r h => (by cases h)⟩
  | succ n ih =>
    have hQ : ∀ (x : CString) (w : World σ), S x → Uncached S w →
        ∀ r, materialGet E (n + 1) x w ≠ Outcome.ok r := by
      intro x w hx hw r
      obtain ⟨file, buf, shader, before, after, ikey, value, y, hopen, hsize, hread, htok,
        hfit, hkp, hinc, hy⟩ := hS x hx
      have hload := materialLoad_definition E (materialGet E n) file zeroMaterial w buf
        shader _ hsize hread htok hfit
      rw [setItems_append_then] at hload
      simp only [materialGet, hw x hx, hopen, hload]
      cases hb : setItems E (materialGet E n) before zeroMaterial w with
      | nullDeref => simp [thenItems, finishLoad]
      | outOfFuel => simp [thenItems, finishLoad]
      | ok q =>
        obtain ⟨o1, w1⟩ := q
        have hw1 : Uncached S w1 :=
          setItems_preserves E (materialGet E n) (Uncached S) (Uncached_textures E S)
            ih.1 before zeroMaterial o1 w w1 hb hw
        have hno := ih.2 y w1 hy hw1
        simp only [thenItems, setItems, hkp, setParam, hinc]
        cases hg : materialGet E n y w1 with
        | ok r1 => exact absurd hg (hno r1)
        | nullDeref => simp [finishLoad]
        | outOfFuel => simp [finishLoad]
    refine ⟨?_, hQ⟩
    intro nm w r w1 hw h
    by_cases hnm : S nm
    · exact absurd h (hQ nm w hnm hw (r, w1))
    · simp only [materialGet] at h
      cases hc : cacheGetMaterial nm w with
      | some mat =>
        rw [hc] at h
        simp only [Outcome.ok.injEq, Prod.mk.injEq] at h
        rw [← h.2]
        exact hw
      | none =>
        rw [hc] at h
        simp only at h
        cases ho : E.collectionChainOpen nm with
        | none =>
          rw [ho] at h
          simp only [Outcome.ok.injEq, Prod.mk.injEq] at h
          rw [← h.2]
          exact hw
        | some file =>
          rw [ho] at h
          simp only at h
          cases hl : materialLoad E (materialGet E n) file zeroMaterial w with
          | nullDeref => rw [hl] at h; cases h
          | outOfFuel => rw [hl] at h; cases h
          | ok q =>
            obtain ⟨ret, localmat, w2⟩ := q
            rw [hl] at h
            have hw2 : Uncached S w2 :=
              (materialLoad_preserves E (materialGet E n) (Uncached S) (Uncached_textures E S)
                ih.1 file _ _ _ _ _ hl hw).1
            simp only at h
            by_cases hr : ret = 0
            · rw [if_pos hr] at h
              simp only [Outcome.ok.injEq, Prod.mk.injEq] at h
              rw [← h.2]
              exact hw2
            · rw [if_neg hr, cacheGetMaterial_put_same] at h
              simp only [Outcome.ok.injEq, Prod.mk.injEq] at h
              rw [← h.2]
              intro y hy
              have hne : normalize nm ≠ normalize y :=
                fun he => hnm (hclosed y nm hy he)
              rw [cacheGetMaterial_put_other y nm localmat w2 hne]
              exact hw2 y hy

/-- C19: the recursion through `include` is not guarded against cycles. For a
well-formed definition `bar`, absent from the cache, with an `include` of
`materials/bar`, in a collection that names files as the cache names records: the
name is still absent from the cache when the entries before the `include` have been
dispatched, so the recursive call finds the state it started in as far as `bar` goes,
and `materialGet` returns for no bound on the depth of the recursion. More generally,
in a set of names closed under change of letter case, none of them cached, in which
every definition includes a definition of the set (a cycle of includes and what leads
to it), `materialGet` returns for no name of the set. -/
theorem materialGet_include_cycle {σ : Type} (E : Env σ) (bar : CString) (w : World σ)
    (file : IFile) (buf : List Char) (shader : CString) (before after : List Item)
    (ikey : CString)
    (hmiss : cacheGetMaterial bar w = none)
    (hconv : ∀ y, normalize y = normalize bar →
      E.collectionChainOpen y = E.collectionChainOpen bar)
    (hopen : E.collectionChainOpen bar = some file)
    (hsize : file.size ≤ bufferSize - 1)
    (hread : file.read 0 file.size = (file.size, buf))
    (htok : E.tokenize buf = definitionLexemes shader
      (before ++ Item.pair ikey ("materials/".toList ++ bar) :: after))
    (hfit : valuesFit
      (before ++ Item.pair ikey ("materials/".toList ++ bar) :: after) = true)
    (hikey : normalize ikey = "include".toList)
    (hvmt : strstr ("materials/".toList ++ bar) ".vmt".toList = none) :
    (∀ (n : Nat) (r : Option Material × World σ), materialGet E n bar w ≠ Outcome.ok r)
      ∧ (∀ (n : Nat) (o1 : Material) (w1 : World σ),
          setItems E (materialGet E n) before zeroMaterial w = Outcome.ok (o1, w1) →
          cacheGetMaterial bar w1 = none)
      ∧ (∀ (S : CString → Prop), (∀ x y, S x → normalize y = normalize x → S y) →
          (∀ x, S x → IncludesMember E S x) →
          ∀ (n : Nat) (name : CString) (w0 : World σ), S name → Uncached S w0 →
            ∀ r, materialGet E n name w0 ≠ Outcome.ok r) := by
  have hkp : keyParam ikey = Param.includeMaterial := by
    rw [← keyParam_normalize, hikey]; rfl
  have hclosed : ∀ x y : CString, normalize x = normalize bar →
      normalize y = normalize x → normalize y = normalize bar :=
    fun x y hx hy => hy.trans hx
  have hS : ∀ x, normalize x = normalize bar →
      IncludesMember E (fun y => normalize y = normalize bar) x := by
    intro x hx
    exact ⟨file, buf, shader, before, after, ikey, "materials/".toList ++ bar, bar,
      (hconv x hx).trans hopen, hsize, hread, htok, hfit, hkp,
      includeName_materials bar hvmt, rfl⟩
  have hun : Uncached (fun y => normalize y = normalize bar) w := by
    intro y hy
    rw [cacheGetMaterial_congr y bar w hy]
    exact hmiss
  refine ⟨?_, ?_, ?_⟩
  · intro n r
    exact (materialGet_cycle E _ hclosed hS n).2 bar w rfl hun r
  · intro n o1 w1 hb
    exact setItems_preserves E (materialGet E n) (Uncached _) (Uncached_textures E _)
      (materialGet_cycle E _ hclosed hS n).1 before zeroMaterial o1 w w1 hb hun bar rfl
  · intro S hc hs n name w0 hname hw0 r
    exact (materialGet_cycle E S hc hs n).2 name w0 hname hw0 r

/-- C19, at a concrete input: the definition `cycle` of the examples,
`"s" { "$basetexture" "a" "include" "materials/cycle" }`, with the bound 4 on the
depth of the recursion. -/
theorem materialGet_include_cycle_witness :
    materialGet moreEnv 4 "cycle".toList startWorld
        ≠ Outcome.ok (some placeholderMaterial, startWorld)
      ∧ materialGet moreEnv 4 "cycle".toList startWorld = Outcome.outOfFuel :=
  ⟨(materialGet_include_cycle moreEnv "cycle".toList startWorld (textFile cycleText)
      cycleText "s".toList [Item.pair "$basetexture".toList "a".toList] []
      "include".toList (by rfl)
      (by
        intro y hy
        simp only [moreEnv, tableEnv, hy])
      (by rfl) (by decide) (by rfl) (by rfl) (by rfl) (by rfl) (by rfl)).1 4
      (some placeholderMaterial, startWorld),
    by rfl⟩

end MaterialVmt
